import Mathlib

/-!
Verification development for the similar-case tracking pipeline
(source: track_similar_cases.py).

Text is modelled as lists of characters (ASCII model of the relevant
Python string and regular-expression operations).  Every definition is a
direct shallow embedding of the corresponding piece of source code; the
regular expressions used by the source are embedded as explicit
backtracking matchers whose candidate order follows the leftmost/greedy
(resp. lazy) semantics of the Python re module.
-/

/-- Character data of a string literal. -/
def chars (s : String) : List Char := s.data

/-- ASCII letter class, the source regex class A-Za-z. -/
def isAl (c : Char) : Bool := decide (('A' ≤ c ∧ c ≤ 'Z') ∨ ('a' ≤ c ∧ c ≤ 'z'))

/-- ASCII digit class, the regex class backslash-d (ASCII model). -/
def isDig (c : Char) : Bool := decide ('0' ≤ c ∧ c ≤ '9')

/-- ASCII whitespace class, the regex class backslash-s and the
character set stripped by the Python str.strip method (ASCII model). -/
def isWs (c : Char) : Bool :=
  c == ' ' || c == '\t' || c == '\n' || c == '\r' || c == '\x0b' || c == '\x0c'

/-- ASCII lower-casing of one character (model of Python str.lower). -/
def lowerC (c : Char) : Char :=
  if 'A' ≤ c ∧ c ≤ 'Z' then Char.ofNat (c.toNat + 32) else c

/-- Lower-casing of a whole string. -/
def toLowerL (l : List Char) : List Char := l.map lowerC

/-- Numeric value of an ASCII digit character. -/
def digitVal (c : Char) : Nat := c.toNat - 48

/-- Python string comparison (lexicographic on code points), as used by
the sorted builtin and pandas sort_values on string columns. -/
def lexLe : List Char → List Char → Bool
  | [], _ => true
  | _ :: _, [] => false
  | a :: as, b :: bs => if a = b then lexLe as bs else decide (a < b)

/-- Python substring containment (the in operator on str). -/
def startsWithL : List Char → List Char → Bool
  | [], _ => true
  | _ :: _, [] => false
  | a :: as, b :: bs => a == b && startsWithL as bs

/-- Python substring containment: containsSub n h is n in h. -/
def containsSub (n : List Char) : List Char → Bool
  | [] => startsWithL n []
  | h :: hs => startsWithL n (h :: hs) || containsSub n hs

/-- Python str.strip (remove whitespace at both ends). -/
def pyStrip (l : List Char) : List Char :=
  (((l.dropWhile isWs).reverse).dropWhile isWs).reverse

/-!
## DateNormalizer: parse_date (source lines 40-58)

parse_date strips its argument and then tries the strptime formats
"%b %d, %Y", "%B %d, %Y", "%Y-%m-%d", "%m/%d/%Y" in order, rendering
the first success as an ISO date; otherwise it returns the stripped
text.  The strptime directives are embedded through the regular
expressions CPython uses for them: %d is 3[01]|[12]d|0[1-9]|[1-9],
%m is 1[0-2]|0[1-9]|[1-9], %Y is exactly four digits, month names are
matched case-insensitively, a space in the format matches one or more
whitespace characters, and the whole input must be consumed.  A match
whose field values do not form a real calendar date raises ValueError
in datetime and the format is skipped, exactly as the source's
try/except does.
-/

/-- All parses of the %d directive: the regex 3[01]|[12]d|0[1-9]|[1-9],
alternatives in regex order (so a two-digit day is preferred), each
returning (value, rest). -/
def parseDayOpts : List Char → List (Nat × List Char)
  | c1 :: c2 :: rest =>
    (if c1 = '3' ∧ (c2 = '0' ∨ c2 = '1') then [(30 + digitVal c2, rest)] else []) ++
    (if (c1 = '1' ∨ c1 = '2') ∧ isDig c2 then [(digitVal c1 * 10 + digitVal c2, rest)] else []) ++
    (if c1 = '0' ∧ ('1' ≤ c2 ∧ c2 ≤ '9') then [(digitVal c2, rest)] else []) ++
    (if '1' ≤ c1 ∧ c1 ≤ '9' then [(digitVal c1, c2 :: rest)] else [])
  | [c1] => if '1' ≤ c1 ∧ c1 ≤ '9' then [(digitVal c1, [])] else []
  | [] => []

/-- All parses of the %m directive: the regex 1[0-2]|0[1-9]|[1-9]. -/
def parseMonOpts : List Char → List (Nat × List Char)
  | c1 :: c2 :: rest =>
    (if c1 = '1' ∧ (c2 = '0' ∨ c2 = '1' ∨ c2 = '2') then [(10 + digitVal c2, rest)] else []) ++
    (if c1 = '0' ∧ ('1' ≤ c2 ∧ c2 ≤ '9') then [(digitVal c2, rest)] else []) ++
    (if '1' ≤ c1 ∧ c1 ≤ '9' then [(digitVal c1, c2 :: rest)] else [])
  | [c1] => if '1' ≤ c1 ∧ c1 ≤ '9' then [(digitVal c1, [])] else []
  | [] => []

/-- The %Y directive: exactly four digits. -/
def parseY4 : List Char → List (Nat × List Char)
  | a :: b :: c :: d :: rest =>
    if isDig a && isDig b && isDig c && isDig d then
      [(((digitVal a * 10 + digitVal b) * 10 + digitVal c) * 10 + digitVal d, rest)]
    else []
  | _ => []

/-- One-or-more whitespace (a space in a strptime format), all suffixes
after consuming at least one whitespace character, longest first. -/
def wsP (l : List Char) : List (List Char) :=
  let k := (l.takeWhile isWs).length
  (List.range k).map (fun j => l.drop (k - j))

/-- A required literal character. -/
def litC (c : Char) : List Char → List (List Char)
  | x :: xs => if x = c then [xs] else []
  | [] => []

/-- Case-insensitive match of one candidate month name. -/
def matchNameCI (n : List Char) (l : List Char) : Bool :=
  (l.take n.length).map lowerC = n.map lowerC

/-- The month names of the %b directive (C locale), with their numbers. -/
def monthAbbrevs : List (Nat × List Char) :=
  [(1, ['J', 'a', 'n']), (2, ['F', 'e', 'b']), (3, ['M', 'a', 'r']),
   (4, ['A', 'p', 'r']), (5, ['M', 'a', 'y']), (6, ['J', 'u', 'n']),
   (7, ['J', 'u', 'l']), (8, ['A', 'u', 'g']), (9, ['S', 'e', 'p']),
   (10, ['O', 'c', 't']), (11, ['N', 'o', 'v']), (12, ['D', 'e', 'c'])]

/-- The month names of the %B directive (C locale), in the
longest-first alternation order CPython builds (no name is a prefix of
another, so the order cannot change which name matches). -/
def monthFulls : List (Nat × List Char) :=
  [(9, ['S', 'e', 'p', 't', 'e', 'm', 'b', 'e', 'r']),
   (2, ['F', 'e', 'b', 'r', 'u', 'a', 'r', 'y']),
   (11, ['N', 'o', 'v', 'e', 'm', 'b', 'e', 'r']),
   (12, ['D', 'e', 'c', 'e', 'm', 'b', 'e', 'r']),
   (1, ['J', 'a', 'n', 'u', 'a', 'r', 'y']),
   (10, ['O', 'c', 't', 'o', 'b', 'e', 'r']),
   (8, ['A', 'u', 'g', 'u', 's', 't']),
   (3, ['M', 'a', 'r', 'c', 'h']),
   (4, ['A', 'p', 'r', 'i', 'l']),
   (6, ['J', 'u', 'n', 'e']),
   (7, ['J', 'u', 'l', 'y']),
   (5, ['M', 'a', 'y'])]

/-- All parses of a month-name directive over a candidate list. -/
def parseMonthIn (names : List (Nat × List Char)) (l : List Char) :
    List (Nat × List Char) :=
  names.filterMap (fun p =>
    if matchNameCI p.2 l then some (p.1, l.drop p.2.length) else none)

/-- Format "month-name day, year" (%b %d, %Y and %B %d, %Y): the first
full-input parse in regex candidate order, as (year, month, day). -/
def runFmtMDY (names : List (Nat × List Char)) (l : List Char) :
    Option (Nat × Nat × Nat) :=
  ((parseMonthIn names l).flatMap (fun mp =>
    (wsP mp.2).flatMap (fun r1 =>
      (parseDayOpts r1).flatMap (fun dp =>
        (litC ',' dp.2).flatMap (fun r2 =>
          (wsP r2).flatMap (fun r3 =>
            (parseY4 r3).filterMap (fun yp =>
              if yp.2 = [] then some (yp.1, mp.1, dp.1) else none))))))).head?

/-- Format %Y-%m-%d. -/
def runFmtISO (l : List Char) : Option (Nat × Nat × Nat) :=
  ((parseY4 l).flatMap (fun yp =>
    (litC '-' yp.2).flatMap (fun r1 =>
      (parseMonOpts r1).flatMap (fun mp =>
        (litC '-' mp.2).flatMap (fun r2 =>
          (parseDayOpts r2).filterMap (fun dp =>
            if dp.2 = [] then some (yp.1, mp.1, dp.1) else none)))))).head?

/-- Format %m/%d/%Y. -/
def runFmtSlash (l : List Char) : Option (Nat × Nat × Nat) :=
  ((parseMonOpts l).flatMap (fun mp =>
    (litC '/' mp.2).flatMap (fun r1 =>
      (parseDayOpts r1).flatMap (fun dp =>
        (litC '/' dp.2).flatMap (fun r2 =>
          (parseY4 r2).filterMap (fun yp =>
            if yp.2 = [] then some (yp.1, mp.1, dp.1) else none)))))).head?

/-- Gregorian leap year, as the datetime module computes it. -/
def isLeap (y : Nat) : Bool := y % 4 = 0 && (y % 100 ≠ 0 || y % 400 = 0)

/-- Days in a month, as validated by the datetime constructor. -/
def daysInMonth (y m : Nat) : Nat :=
  if m = 2 then (if isLeap y then 29 else 28)
  else if m = 4 ∨ m = 6 ∨ m = 9 ∨ m = 11 then 30 else 31

/-- The dates the datetime constructor accepts (year 1..9999). -/
def validYMD (y m d : Nat) : Bool :=
  decide (1 ≤ y ∧ y ≤ 9999 ∧ 1 ≤ m ∧ m ≤ 12 ∧ 1 ≤ d) && decide (d ≤ daysInMonth y m)

/-- Two-digit zero-padded decimal rendering (strftime %m and %d). -/
def pad2 (n : Nat) : List Char := [Nat.digitChar (n / 10), Nat.digitChar (n % 10)]

/-- Four-digit zero-padded decimal rendering (strftime %Y as documented
by Python). -/
def pad4 (n : Nat) : List Char :=
  [Nat.digitChar (n / 1000 % 10), Nat.digitChar (n / 100 % 10),
   Nat.digitChar (n / 10 % 10), Nat.digitChar (n % 10)]

/-- strftime("%Y-%m-%d"). -/
def isoRender (y m d : Nat) : List Char := pad4 y ++ '-' :: pad2 m ++ '-' :: pad2 d

/-- Run one strptime format: a regex match whose values fail calendar
validation raises ValueError and the format is skipped. -/
def tryFmt (f : List Char → Option (Nat × Nat × Nat)) (l : List Char) :
    Option (List Char) :=
  match f l with
  | some t => if validYMD t.1 t.2.1 t.2.2 then some (isoRender t.1 t.2.1 t.2.2) else none
  | none => none

/-- The DateNormalizer parse_date (source lines 40-58): strip, try the
four formats in order, and fall back to the stripped text. -/
def parse_date (l : List Char) : List Char :=
  let t := pyStrip l
  match tryFmt (runFmtMDY monthAbbrevs) t with
  | some r => r
  | none =>
    match tryFmt (runFmtMDY monthFulls) t with
    | some r => r
    | none =>
      match tryFmt runFmtISO t with
      | some r => r
      | none =>
        match tryFmt runFmtSlash t with
        | some r => r
        | none => t

/-!
## Data model

TimelineEntry is the raw (date, status) observation produced by
extraction; Record is one row of the persisted store, with the columns
receipt_number, status, status_date, status_type, scraped_at.
-/

structure Entry where
  date : List Char
  status : List Char
deriving DecidableEq, Repr

structure Record where
  receipt_number : List Char
  status : List Char
  status_date : List Char
  status_type : List Char
  scraped_at : List Char
deriving DecidableEq, Repr

/-!
## TimelineExtractor: the pure text part of get_case_timeline
(source lines 75-181)

The three regular expressions of the extractor are embedded as
backtracking matchers.  A matcher maps an input suffix to the list of
possible remaining suffixes, ordered the way the re module explores
them (greedy pieces longest first); search tries start positions left
to right.
-/

/-- Backtracking matchers: input suffix to candidate remainders in
exploration order. -/
abbrev PM := List Char → List (List Char)

/-- Sequencing of matchers, preserving exploration order. -/
def pThen (a b : PM) : PM := fun l => (a l).flatMap b

/-- Case-insensitive literal (a literal in an IGNORECASE pattern). -/
def pLitCI (s : List Char) : PM := fun l =>
  if (l.take s.length).map lowerC = s.map lowerC then [l.drop s.length] else []

/-- One literal character. -/
def pChar (c : Char) : PM := fun l =>
  match l with
  | x :: xs => if x = c then [xs] else []
  | [] => []

/-- One character of a class. -/
def pClass1 (p : Char → Bool) : PM := fun l =>
  match l with
  | x :: xs => if p x then [xs] else []
  | [] => []

/-- Greedy zero-or-more of a character class, longest first. -/
def pStarG (p : Char → Bool) : PM := fun l =>
  let k := (l.takeWhile p).length
  (List.range (k + 1)).map (fun j => l.drop (k - j))

/-- Greedy one-or-more of a character class, longest first. -/
def pPlusG (p : Char → Bool) : PM := fun l =>
  let k := (l.takeWhile p).length
  (List.range k).map (fun j => l.drop (k - j))

/-- Greedy optional literal character. -/
def pOptC (c : Char) : PM := fun l =>
  match l with
  | x :: xs => if x = c then [xs, x :: xs] else [x :: xs]
  | [] => [[]]

/-- The date shape the extractor looks for:
[A-Za-z]+ whitespace+ digits+ ,? whitespace* digit digit digit digit. -/
def pDateTrue : PM :=
  pThen (pPlusG isAl) (pThen (pPlusG isWs) (pThen (pPlusG isDig)
    (pThen (pOptC ',') (pThen (pStarG isWs)
      (pThen (pClass1 isDig) (pThen (pClass1 isDig)
        (pThen (pClass1 isDig) (pClass1 isDig))))))))

/-- The date shape actually used by the fallback pass.  The source
builds that pattern with an f-string, so the {4} quantifier is consumed
as a format replacement field and the compiled regex ends in
backslash-d followed by a literal 4:
[A-Za-z]+ whitespace+ digits+ ,? whitespace* digit then the character 4. -/
def pDateBug : PM :=
  pThen (pPlusG isAl) (pThen (pPlusG isWs) (pThen (pPlusG isDig)
    (pThen (pOptC ',') (pThen (pStarG isWs)
      (pThen (pClass1 isDig) (pChar '4'))))))

/-- First match at a fixed position: run the pattern pre then grp and
return the text captured by grp for the first successful candidate. -/
def firstGroup (pre grp : PM) (l : List Char) : Option (List Char) :=
  ((pre l).flatMap (fun r =>
    (grp r).map (fun rest => r.take (r.length - rest.length)))).head?

/-- re.search: try start positions left to right, returning the group
of the leftmost match. -/
def searchGroup (pre grp : PM) : List Char → Option (List Char)
  | [] => firstGroup pre grp []
  | x :: xs =>
    match firstGroup pre grp (x :: xs) with
    | some g => some g
    | none => searchGroup pre grp xs

/-- The part of the filed-date pattern before the capture group:
FILED whitespace* DATE whitespace* newline? whitespace*
(IGNORECASE; source line 103). -/
def pFiledPre : PM :=
  pThen (pLitCI (chars "FILED")) (pThen (pStarG isWs)
    (pThen (pLitCI (chars "DATE")) (pThen (pStarG isWs)
      (pThen (pOptC '\n') (pStarG isWs)))))

/-- Group 1 of the filed-date search. -/
def filedDateGroup (page : List Char) : Option (List Char) :=
  searchGroup pFiledPre pDateTrue page

/-- The history-section pattern up to and including its newline:
HISTORY whitespace* newline (IGNORECASE; source line 121). -/
def pHistPre : PM :=
  pThen (pLitCI (chars "HISTORY")) (pThen (pStarG isWs) (pChar '\n'))

/-- Does one of the end alternatives CASE NUMBER PATTERN, Nearby Cases
or dollar match at this suffix?  With DOTALL and no MULTILINE, dollar
matches at the end of the text or just before a final newline. -/
def endAlt (r : List Char) : Bool :=
  (pLitCI (chars "CASE NUMBER PATTERN") r) ≠ [] ||
  (pLitCI (chars "Nearby Cases") r) ≠ [] ||
  r == [] || r == ['\n']

/-- The lazy group (.*?) before the end alternation: the shortest
prefix whose remainder starts with an end alternative. -/
def lazyGroup (r : List Char) : Option (List Char) :=
  ((List.range (r.length + 1)).find? (fun j => endAlt (r.drop j))).map
    (fun j => r.take j)

/-- re.search for the history section, returning group 1. -/
def historyGroup : List Char → Option (List Char)
  | [] => none
  | x :: xs =>
    match (pHistPre (x :: xs)).head? with
    | some r => lazyGroup r
    | none => historyGroup xs

/-- Python str.split on a newline. -/
def splitNl : List Char → List (List Char)
  | [] => [[]]
  | c :: cs =>
    if c = '\n' then [] :: splitNl cs
    else
      match splitNl cs with
      | h :: t => (c :: h) :: t
      | [] => [[c]]

/-- The status vocabulary of the extractor (source lines 81-99). -/
def statusKeywords : List (List Char) :=
  [chars "Interview Cancelled",
   chars "Interview Canceled",
   chars "Interview Was Scheduled",
   chars "Card Was Delivered",
   chars "Card Was Produced",
   chars "Card Is Being Produced",
   chars "Case Was Approved",
   chars "Case Was Updated",
   chars "Request for Evidence",
   chars "Request For Initial Evidence Was Sent",
   chars "New Card Is Being Produced",
   chars "Case Was Received",
   chars "Case Was Received and A Receipt Notice Was Sent",
   chars "Fingerprint Fee Was Received",
   chars "Case Was Transferred",
   chars "Case Is Being Actively Reviewed By USCIS",
   chars "Biometrics Appointment Was Scheduled"]

/-- Full-line match of the bare date shape (re.match anchored with
dollar; the lines tested are stripped, hence newline-free). -/
def isFullDate (line : List Char) : Bool := (pDateTrue line).contains []

/-- First keyword contained case-insensitively in the status line. -/
def keywordIn (sl : List Char) : Option (List Char) :=
  statusKeywords.find? (fun k => containsSub (toLowerL k) (toLowerL sl))

/-- Verbatim free-text status: non-empty, not itself date-shaped,
longer than three characters and not a Discover noise line
(source lines 148-151). -/
def freeTextStatus (sl : List Char) : Option (List Char) :=
  if sl ≠ [] ∧ isFullDate sl = false ∧ sl.length > 3 ∧
      startsWithL (chars "Discover") sl = false then
    some sl
  else none

/-- Append a (date, status) entry unless that pair was already
emitted (source lines 154-160 and 174-179). -/
def addIfNew (acc : List Entry) (d st : List Char) : List Entry :=
  if (acc.map (fun e => (e.date, e.status))).contains (d, st) then acc
  else acc ++ [⟨d, st⟩]

/-- The two-line pairing loop over the history lines
(source lines 127-164): a stripped line matching the bare date shape
pairs with the following line as its status; matched pairs advance two
lines, others one. -/
def histLoop : List (List Char) → List Entry → List Entry
  | [], acc => acc
  | l0 :: rest, acc =>
    let line := pyStrip l0
    if isFullDate line then
      match rest with
      | [] => acc
      | l1 :: rest2 =>
        let sl := pyStrip l1
        let found := match keywordIn sl with
          | some k => some k
          | none => freeTextStatus sl
        let dstr := parse_date line
        let acc2 := match found with
          | some st => if dstr ≠ [] then addIfNew acc dstr st else acc
          | none => acc
        histLoop rest2 acc2
    else histLoop rest acc

/-- At a fixed position after the lazy gap: optional On whitespace+,
then the (bugged) date group; the branch with On is tried first. -/
def fbAt (r : List Char) : Option (List Char) :=
  match firstGroup (pThen (pLitCI (chars "On")) (pPlusG isWs)) pDateBug r with
  | some g => some g
  | none => firstGroup (fun l => [l]) pDateBug r

/-- The lazy gap .*? (DOTALL): shortest extension first. -/
def fbLazy (r : List Char) : Option (List Char) :=
  (List.range (r.length + 1)).findSome? (fun j => fbAt (r.drop j))

/-- re.search for one fallback keyword pattern, returning group 1
(the date text). -/
def searchKeywordBug (k : List Char) : List Char → Option (List Char)
  | [] =>
    match (pLitCI k []).head? with
    | some r => fbLazy r
    | none => none
  | x :: xs =>
    match (pLitCI k (x :: xs)).head? with
    | some r =>
      match fbLazy r with
      | some g => some g
      | none => searchKeywordBug k xs
    | none => searchKeywordBug k xs

/-- The fallback pass (source lines 166-179): if fewer than two entries
were produced so far, scan the page once per keyword and add any new
(date, keyword) pair found by the bugged pattern. -/
def fallbackPass (page : List Char) (entries : List Entry) : List Entry :=
  if entries.length < 2 then
    statusKeywords.foldl (fun acc k =>
      match searchKeywordBug k page with
      | some g => addIfNew acc (parse_date g) k
      | none => acc) entries
  else entries

/-- The whole pure text processing of get_case_timeline
(source lines 75-181): filed-date anchor, history section, fallback. -/
def extractTimeline (page : List Char) : List Entry :=
  let e1 : List Entry :=
    match filedDateGroup page with
    | some g => [⟨parse_date g, chars "Case Was Received"⟩]
    | none => []
  let e2 :=
    match historyGroup page with
    | some ht => histLoop (splitNl (pyStrip ht)) e1
    | none => e1
  fallbackPass page e2

/-!
## StatusClassifier: parse_timeline_entries (source lines 187-275)
-/

/-- The syntactic date filter of the classifier
(source line 199, the anchored pattern of four digits, hyphen, two
digits, hyphen, two digits; purely a shape check). -/
def isoShapedCore : List Char → Bool
  | [a, b, c, d, e, f, g, h, i, j] =>
    isDig a && isDig b && isDig c && isDig d && e == '-' &&
    isDig f && isDig g && h == '-' && isDig i && isDig j
  | _ => false

/-- re.match with a dollar anchor also accepts a final newline. -/
def isoShaped (l : List Char) : Bool :=
  isoShapedCore l || (l.getLast? == some '\n' && isoShapedCore l.dropLast)

/-- Predicate for an interview-cancellation status
(source lines 215-217). -/
def icPred (st : List Char) : Bool :=
  containsSub (chars "interview") (toLowerL st) &&
    (containsSub (chars "cancelled") (toLowerL st) ||
     containsSub (chars "canceled") (toLowerL st))

/-- Order on entries used by the classifier sort (Python sorted with
the date string as key; stable). -/
def entLe (a b : Entry) : Bool := lexLe a.date b.date

/-- The entries kept by the date filter, in input order. -/
def validEntries (tl : List Entry) : List Entry :=
  tl.filter (fun e => isoShaped e.date)

/-- The classifier's sorted timeline.  Python sorted is a stable sort;
it is embedded as insertion sort, which is stable with the same key
order and therefore produces the same list. -/
def sortedValid (tl : List Entry) : List Entry :=
  List.insertionSort (fun a b => entLe a b = true) (validEntries tl)

/-- The interview_cancelled pick: first cancellation in sorted order
(source lines 214-219). -/
def icPick (tl : List Entry) : Option Entry :=
  (sortedValid tl).find? (fun e => icPred e.status)

/-- The case_received pick: first non-cancellation in sorted order
(source lines 222-227). -/
def crPick (tl : List Entry) : Option Entry :=
  (sortedValid tl).find? (fun e => !(icPred e.status))

/-- The last_status pick: the last entry in sorted order
(source line 233). -/
def lsPick (tl : List Entry) : Option Entry :=
  (sortedValid tl).getLast?

/-- Record assembly with duplicate suppression (source lines 236-273):
case_received is added first, interview_cancelled unless its pair
equals case_received's, last_status unless its pair was already added. -/
def buildRecords (rn ts : List Char) (cr ic ls : Option Entry) : List Record :=
  let crL : List Record :=
    match cr with
    | some e => [⟨rn, e.status, e.date, chars "case_received", ts⟩]
    | none => []
  let crKeys : List (List Char × List Char) :=
    match cr with
    | some e => [(e.date, e.status)]
    | none => []
  let icL : List Record :=
    match ic with
    | some e =>
      if crKeys.contains (e.date, e.status) then []
      else [⟨rn, e.status, e.date, chars "interview_cancelled", ts⟩]
    | none => []
  let keys2 : List (List Char × List Char) :=
    crKeys ++
      (match ic with
       | some e => if crKeys.contains (e.date, e.status) then [] else [(e.date, e.status)]
       | none => [])
  let lsL : List Record :=
    match ls with
    | some e =>
      if keys2.contains (e.date, e.status) then []
      else [⟨rn, e.status, e.date, chars "last_status", ts⟩]
    | none => []
  crL ++ icL ++ lsL

/-- The StatusClassifier (source lines 187-275). -/
def parse_timeline_entries (tl : List Entry) (rn ts : List Char) : List Record :=
  if tl = [] then []
  else if validEntries tl = [] then []
  else buildRecords rn ts (crPick tl) (icPick tl) (lsPick tl)

/-!
## HistoryReconciler: clean_existing_history (source lines 277-314)
and the per-case merge of main (source lines 376-412)
-/

/-- Order on records used by the per-case sort of the cleaner
(sort_values on status_date). -/
def recDateLe (a b : Record) : Bool := lexLe a.status_date b.status_date

/-- Order used by the final sort of the store
(sort_values on receipt_number then status_date). -/
def recKeyLe (a b : Record) : Bool :=
  if a.receipt_number = b.receipt_number then lexLe a.status_date b.status_date
  else lexLe a.receipt_number b.receipt_number

/-- pandas unique: values in order of first appearance. -/
def uniqueFirst (seen : List (List Char)) : List (List Char) → List (List Char)
  | [] => []
  | x :: xs =>
    if x ∈ seen then uniqueFirst seen xs
    else x :: uniqueFirst (x :: seen) xs

/-- tail(1).iloc[0] of the rows of one status_type within a case's
sorted rows: the last such row, if any. -/
def lastOfType (ce : List Record) (t : List Char) : List Record :=
  match (ce.filter (fun r => r.status_type = t)).getLast? with
  | none => []
  | some r => [r]

/-- clean_existing_history (source lines 277-314): drop unknown rows,
then for every case keep the last row of each of the three types in its
status_date-sorted rows, and sort the result by (receipt_number,
status_date). -/
def clean_existing_history (df : List Record) : List Record :=
  if df = [] then df
  else
    let dfc := df.filter (fun r => r.status_type ≠ chars "unknown")
    let cs := uniqueFirst [] (dfc.map (fun r => r.receipt_number))
    let rows := cs.flatMap (fun c =>
      let ce := List.insertionSort (fun a b => recDateLe a b = true)
        (dfc.filter (fun r => r.receipt_number = c))
      lastOfType ce (chars "case_received") ++
        lastOfType ce (chars "interview_cancelled") ++
        lastOfType ce (chars "last_status"))
    List.insertionSort (fun a b => recKeyLe a b = true) rows

/-- One step of the per-case merge loop (source lines 388-404); the
snapshot existing is the case's rows of the store as they were before
the loop, the state is (current store, records to append). -/
def mergeStep (existing : List Record) (c : List Char)
    (p : List Record × List Record) (rec : Record) : List Record × List Record :=
  match existing.filter (fun r => r.status_type = rec.status_type) with
  | [] => (p.1, p.2 ++ [rec])
  | e :: _ =>
    if e.status_date ≠ rec.status_date ∨ e.status ≠ rec.status then
      (p.1.filter (fun r => ¬(r.receipt_number = c ∧ r.status_type = rec.status_type)),
        p.2 ++ [rec])
    else p

/-- The per-case merge (source lines 376-412): a case with no existing
rows contributes all its classified records; otherwise each record is
inserted, replaces a differing row of its type, or is a no-op.
Returns (store after removals, records to append at run end). -/
def mergeCase (store : List Record) (c : List Char) (recs : List Record) :
    List Record × List Record :=
  let existing := store.filter (fun r => r.receipt_number = c)
  if existing = [] then (store, recs)
  else recs.foldl (mergeStep existing c) (store, [])

/-- The store obtained when the appends of a merge are flushed
(the concat at source lines 424-428). -/
def mergedStore (store : List Record) (c : List Char) (recs : List Record) :
    List Record :=
  (mergeCase store c recs).1 ++ (mergeCase store c recs).2

/-- The timeline obtained for one case: a failed fetch yields the empty
timeline (source lines 183-185). -/
def caseTimeline (fetch : List Char → Option (List Char)) (c : List Char) :
    List Entry :=
  match fetch c with
  | none => []
  | some txt => extractTimeline txt

/-- One iteration of the main loop (source lines 357-416): an empty
timeline skips the case; otherwise its classified records are merged.
The state is (in-memory store, accumulated new entries). -/
def stepCase (fetch : List Char → Option (List Char)) (ts : List Char)
    (acc : List Record × List Record) (c : List Char) : List Record × List Record :=
  let tl := caseTimeline fetch c
  if tl = [] then acc
  else
    let recs := parse_timeline_entries tl c ts
    let p := mergeCase acc.1 c recs
    (p.1, acc.2 ++ p.2)

/-- The whole run (source lines 316-435): sort the case list, clean the
loaded store, process each case, append the accumulated new entries and
sort the result by (receipt_number, status_date). -/
def runPipeline (fetch : List Char → Option (List Char))
    (cases : List (List Char)) (store0 : List Record) (ts : List Char) :
    List Record :=
  let cs := List.insertionSort (fun a b => lexLe a b = true) cases
  let p := cs.foldl (stepCase fetch ts) (clean_existing_history store0, [])
  List.insertionSort (fun a b => recKeyLe a b = true) (p.1 ++ p.2)

/-- Number of records of one (caseId, statusType) pair. -/
def keyCount (l : List Record) (c t : List Char) : Nat :=
  (l.filter (fun r => r.receipt_number = c ∧ r.status_type = t)).length

/-- Number of records of one caseId. -/
def caseCount (l : List Record) (c : List Char) : Nat :=
  (l.filter (fun r => r.receipt_number = c)).length

/-!
## Renderings of a calendar date in the four supported formats

Modelled from the spec: the round-trip property quantifies over "the
rendering of d" in each format; the source only parses these formats
and never renders them, so the renderings are taken from the format
descriptions (month name or zero-padded month, zero-padded day,
four-digit year, with the separators of each format).
-/

/-- Modelled from the spec: the abbreviated month name of month m. -/
def monthAbbrevOf (m : Nat) : List Char :=
  match m with
  | 1 => ['J', 'a', 'n'] | 2 => ['F', 'e', 'b'] | 3 => ['M', 'a', 'r']
  | 4 => ['A', 'p', 'r'] | 5 => ['M', 'a', 'y'] | 6 => ['J', 'u', 'n']
  | 7 => ['J', 'u', 'l'] | 8 => ['A', 'u', 'g'] | 9 => ['S', 'e', 'p']
  | 10 => ['O', 'c', 't'] | 11 => ['N', 'o', 'v'] | 12 => ['D', 'e', 'c']
  | _ => []

/-- Modelled from the spec: the full month name of month m. -/
def monthFullOf (m : Nat) : List Char :=
  match m with
  | 1 => ['J', 'a', 'n', 'u', 'a', 'r', 'y']
  | 2 => ['F', 'e', 'b', 'r', 'u', 'a', 'r', 'y']
  | 3 => ['M', 'a', 'r', 'c', 'h']
  | 4 => ['A', 'p', 'r', 'i', 'l']
  | 5 => ['M', 'a', 'y']
  | 6 => ['J', 'u', 'n', 'e']
  | 7 => ['J', 'u', 'l', 'y']
  | 8 => ['A', 'u', 'g', 'u', 's', 't']
  | 9 => ['S', 'e', 'p', 't', 'e', 'm', 'b', 'e', 'r']
  | 10 => ['O', 'c', 't', 'o', 'b', 'e', 'r']
  | 11 => ['N', 'o', 'v', 'e', 'm', 'b', 'e', 'r']
  | 12 => ['D', 'e', 'c', 'e', 'm', 'b', 'e', 'r']
  | _ => []

/-- Modelled from the spec: rendering in the abbreviated-month format,
as in Mar 17, 2025. -/
def renderAbbrev (y m d : Nat) : List Char :=
  monthAbbrevOf m ++ ' ' :: (pad2 d ++ ',' :: ' ' :: pad4 y)

/-- Modelled from the spec: rendering in the full-month format,
as in March 17, 2025. -/
def renderFull (y m d : Nat) : List Char :=
  monthFullOf m ++ ' ' :: (pad2 d ++ ',' :: ' ' :: pad4 y)

/-- Modelled from the spec: rendering in the ISO format,
as in 2025-03-17. -/
def renderISO (y m d : Nat) : List Char := isoRender y m d

/-- Modelled from the spec: rendering in the slash-separated format,
as in 03/17/2025. -/
def renderSlash (y m d : Nat) : List Char :=
  pad2 m ++ '/' :: (pad2 d ++ '/' :: pad4 y)

/-!
## Shared lemmas
-/

theorem lexLe_trans : ∀ a b c : List Char,
    lexLe a b = true → lexLe b c = true → lexLe a c = true := by
  intro a
  induction a with
  | nil => intro b c _ _; rfl
  | cons x xs ih =>
    intro b c h1 h2
    cases b with
    | nil => simp [lexLe] at h1
    | cons y ys =>
      cases c with
      | nil => simp [lexLe] at h2
      | cons z zs =>
        simp only [lexLe] at h1 h2 ⊢
        by_cases hxy : x = y
        · subst hxy
          by_cases hxz : x = z
          · subst hxz
            simp only [if_pos rfl] at h1 h2 ⊢
            exact ih ys zs h1 h2
          · by_cases hyz : x = z
            · exact absurd hyz hxz
            · simpa [hxz] using h2
        · have h1' : x < y := by simpa [hxy] using h1
          by_cases hyz : y = z
          · subst hyz
            simp [hxy, h1']
          · have h2' : y < z := by simpa [hyz] using h2
            have hxz : x < z := lt_trans h1' h2'
            simp [ne_of_lt hxz, hxz]

theorem lexLe_total : ∀ a b : List Char, lexLe a b = true ∨ lexLe b a = true := by
  intro a
  induction a with
  | nil => intro b; left; rfl
  | cons x xs ih =>
    intro b
    cases b with
    | nil => right; rfl
    | cons y ys =>
      rcases lt_trichotomy x y with h | h | h
      · left; simp [lexLe, ne_of_lt h, h]
      · subst h
        rcases ih ys with h | h
        · left; simpa [lexLe] using h
        · right; simpa [lexLe] using h
      · right; simp [lexLe, ne_of_lt h, h]

theorem lexLe_antisymm : ∀ a b : List Char,
    lexLe a b = true → lexLe b a = true → a = b := by
  intro a
  induction a with
  | nil =>
    intro b _ h2
    cases b with
    | nil => rfl
    | cons y ys => simp [lexLe] at h2
  | cons x xs ih =>
    intro b h1 h2
    cases b with
    | nil => simp [lexLe] at h1
    | cons y ys =>
      by_cases hxy : x = y
      · subst hxy
        simp only [lexLe, if_pos rfl] at h1 h2
        rw [ih ys h1 h2]
      · have h1' : x < y := by simpa [lexLe, hxy] using h1
        have h2' : y < x := by simpa [lexLe, Ne.symm hxy] using h2
        exact absurd h2' (not_lt.mpr (le_of_lt h1'))

theorem mem_sortedValid {e : Entry} {tl : List Entry} (h : e ∈ sortedValid tl) :
    e ∈ tl ∧ isoShaped e.date = true := by
  have h2 : e ∈ validEntries tl :=
    ((List.perm_insertionSort (fun a b => entLe a b = true) (validEntries tl)).mem_iff).1 h
  simpa [validEntries, List.mem_filter] using h2

theorem mem_of_getLast?_eq_some {α : Type} {l : List α} {a : α}
    (h : l.getLast? = some a) : a ∈ l := by
  have hm : a ∈ l.getLast? := by simp [h]
  rcases List.mem_getLast?_eq_getLast hm with ⟨hne, heq⟩
  rw [heq]
  exact List.getLast_mem hne

theorem buildRecords_mem {rn ts : List Char} {cr ic ls : Option Entry} {r : Record}
    (h : r ∈ buildRecords rn ts cr ic ls) :
    (∃ e, cr = some e ∧ r = ⟨rn, e.status, e.date, chars "case_received", ts⟩) ∨
    (∃ e, ic = some e ∧ r = ⟨rn, e.status, e.date, chars "interview_cancelled", ts⟩) ∨
    (∃ e, ls = some e ∧ r = ⟨rn, e.status, e.date, chars "last_status", ts⟩) := by
  rcases cr with _ | ecr <;> rcases ic with _ | eic <;> rcases ls with _ | els <;>
    simp only [buildRecords, List.mem_append] at h <;>
    first
      | (split_ifs at h <;> simp_all <;> tauto)
      | (simp_all <;> try tauto)

/-!
## Claims
-/

/-- C1, counterexample: the uniqueness invariant fails when the input
list of case identifiers contains the same identifier twice.  The main
loop checks a new case only against the loaded store, not against the
entries accumulated in the same run, so a duplicated identifier whose
page yields a filed date produces two identical case_received rows in
the final store. -/
theorem C1_counterexample :
    keyCount
      (runPipeline
        (fun c => if c = chars "A" then some (chars "FILED DATE\nMar 17, 2025") else none)
        [chars "A", chars "A"] [] (chars "2025-10-01 00:00:00"))
      (chars "A") (chars "case_received") = 2 := by decide

/-- C2: at the failing input, the store-wide cleaning keeps the record
with the latest status_date (the first row below) and discards the
record with the latest scraped_at (the second row), because
clean_existing_history sorts each case's rows by status_date, not by
scraped_at, before taking the last row of each type.  The claim (and
the comment in the source) says the most recently observed record is
kept, which would be the second row. -/
theorem C2_clean_keeps_latest_status_date :
    clean_existing_history
      [⟨chars "A", chars "Case Was Updated", chars "2025-06-01", chars "last_status",
        chars "2025-01-02 00:00:00"⟩,
       ⟨chars "A", chars "Case Was Approved", chars "2025-05-01", chars "last_status",
        chars "2025-01-03 00:00:00"⟩] =
      [⟨chars "A", chars "Case Was Updated", chars "2025-06-01", chars "last_status",
        chars "2025-01-02 00:00:00"⟩] := by decide

/-- C3: at a page containing a known status phrase followed by a
supported date, on which steps 1-2 produce no entries, the fallback
pass emits nothing: the f-string that builds the fallback pattern
swallows the brace-4 quantifier, so the compiled regex requires a
digit followed by a literal 4 where a four-digit year was intended,
and "May 9, 2025" cannot match it.  The claim (and the spec) says the
pair (2025-05-09, Interview Cancelled) is emitted. -/
theorem C3_fallback_emits_nothing :
    filedDateGroup (chars "Interview Cancelled On May 9, 2025") = none ∧
    historyGroup (chars "Interview Cancelled On May 9, 2025") = none ∧
    searchKeywordBug (chars "Interview Cancelled")
      (chars "Interview Cancelled On May 9, 2025") = none ∧
    extractTimeline (chars "Interview Cancelled On May 9, 2025") = [] := by decide

/-- C4, counterexample: two timelines that are permutations of each
other, sharing one date, classify differently: the relative order of
the equal-date entries decides which of them becomes case_received. -/
theorem C4_counterexample :
    ([⟨chars "2025-01-01", chars "Alpha"⟩, ⟨chars "2025-01-01", chars "Beta"⟩] : List Entry).Perm
      [⟨chars "2025-01-01", chars "Beta"⟩, ⟨chars "2025-01-01", chars "Alpha"⟩] ∧
    (⟨chars "A", chars "Alpha", chars "2025-01-01", chars "case_received", chars "ts"⟩ : Record) ∈
      parse_timeline_entries
        [⟨chars "2025-01-01", chars "Alpha"⟩, ⟨chars "2025-01-01", chars "Beta"⟩]
        (chars "A") (chars "ts") ∧
    (⟨chars "A", chars "Alpha", chars "2025-01-01", chars "case_received", chars "ts"⟩ : Record) ∉
      parse_timeline_entries
        [⟨chars "2025-01-01", chars "Beta"⟩, ⟨chars "2025-01-01", chars "Alpha"⟩]
        (chars "A") (chars "ts") := by decide

/-- C5, counterexample: an input that matches none of the four formats
is not returned unchanged when it carries surrounding whitespace,
because parse_date strips its argument first and returns the stripped
text. -/
theorem C5_counterexample :
    runFmtMDY monthAbbrevs (chars " hello ") = none ∧
    runFmtMDY monthFulls (chars " hello ") = none ∧
    runFmtISO (chars " hello ") = none ∧
    runFmtSlash (chars " hello ") = none ∧
    parse_date (chars " hello ") ≠ chars " hello " := by decide

/-- C5, amended: when none of the four formats matches the stripped
input, parse_date returns the stripped input (and, the embedding being
a total function, no exception escapes); the result equals the
original input exactly when the input carries no surrounding
whitespace. -/
theorem C5_returns_stripped (l : List Char)
    (h1 : tryFmt (runFmtMDY monthAbbrevs) (pyStrip l) = none)
    (h2 : tryFmt (runFmtMDY monthFulls) (pyStrip l) = none)
    (h3 : tryFmt runFmtISO (pyStrip l) = none)
    (h4 : tryFmt runFmtSlash (pyStrip l) = none) :
    parse_date l = pyStrip l ∧ (pyStrip l = l → parse_date l = l) := by
  constructor
  · simp [parse_date, h1, h2, h3, h4]
  · intro hs
    rw [hs] at h1 h2 h3 h4
    simp [parse_date, hs, h1, h2, h3, h4]

/-- C5, witness for the amended theorem at a concrete stripped input. -/
theorem C5_returns_stripped_witness :
    parse_date (chars "hello") = pyStrip (chars "hello") ∧
    (pyStrip (chars "hello") = chars "hello" → parse_date (chars "hello") = chars "hello") :=
  C5_returns_stripped (chars "hello") (by decide) (by decide) (by decide) (by decide)

/-- C8: a case whose fetch fails (or whose page yields an empty
timeline) leaves the in-memory store and the accumulated new entries
unchanged, and the main loop continues with the remaining cases. -/
theorem C8_failed_fetch_skips_case (fetch : List Char → Option (List Char))
    (ts : List Char) (store acc : List Record) (c : List Char)
    (rest : List (List Char)) (h : caseTimeline fetch c = []) :
    stepCase fetch ts (store, acc) c = (store, acc) ∧
    List.foldl (stepCase fetch ts) (store, acc) (c :: rest) =
      List.foldl (stepCase fetch ts) (store, acc) rest := by
  have hs : stepCase fetch ts (store, acc) c = (store, acc) := by
    simp [stepCase, h]
  exact ⟨hs, by simp [List.foldl_cons, hs]⟩

/-- C8, witness: a fetch that always fails leaves a one-record store
untouched. -/
theorem C8_failed_fetch_skips_case_witness :
    stepCase (fun _ => none) (chars "ts")
      ([⟨chars "A", chars "S", chars "2025-01-01", chars "last_status", chars "t0"⟩], [])
      (chars "A") =
      ([⟨chars "A", chars "S", chars "2025-01-01", chars "last_status", chars "t0"⟩], []) ∧
    List.foldl (stepCase (fun _ => none) (chars "ts"))
      ([⟨chars "A", chars "S", chars "2025-01-01", chars "last_status", chars "t0"⟩], [])
      [chars "A"] =
      List.foldl (stepCase (fun _ => none) (chars "ts"))
      ([⟨chars "A", chars "S", chars "2025-01-01", chars "last_status", chars "t0"⟩], []) [] :=
  C8_failed_fetch_skips_case (fun _ => none) (chars "ts")
    [⟨chars "A", chars "S", chars "2025-01-01", chars "last_status", chars "t0"⟩] []
    (chars "A") [] (by decide)

/-- C9: the classifier's date filter is purely syntactic: every record
it produces takes its statusDate (and status) from an input entry
whose date passes the shape check, and a date such as 2025-13-99,
which is no real calendar date, passes the check and becomes the
statusDate of a produced record; there is no semantic month or day
range check. -/
theorem C9_date_filter_is_syntactic :
    (∀ (tl : List Entry) (rn ts : List Char) (r : Record),
        r ∈ parse_timeline_entries tl rn ts →
        ∃ e, e ∈ tl ∧ isoShaped e.date = true ∧
          r.status_date = e.date ∧ r.status = e.status) ∧
    parse_timeline_entries [⟨chars "2025-13-99", chars "Whatever Happened"⟩]
        (chars "A") (chars "ts") =
      [⟨chars "A", chars "Whatever Happened", chars "2025-13-99",
        chars "case_received", chars "ts"⟩] := by
  constructor
  · intro tl rn ts r hr
    by_cases htl : tl = []
    · simp [parse_timeline_entries, htl] at hr
    · by_cases hve : validEntries tl = []
      · simp [parse_timeline_entries, htl, hve] at hr
      · simp only [parse_timeline_entries, if_neg htl, if_neg hve] at hr
        rcases buildRecords_mem hr with ⟨e, he, hre⟩ | ⟨e, he, hre⟩ | ⟨e, he, hre⟩
        · have hm := mem_sortedValid (List.mem_of_find?_eq_some he)
          exact ⟨e, hm.1, hm.2, by simp [hre], by simp [hre]⟩
        · have hm := mem_sortedValid (List.mem_of_find?_eq_some he)
          exact ⟨e, hm.1, hm.2, by simp [hre], by simp [hre]⟩
        · have hm := mem_sortedValid (mem_of_getLast?_eq_some he)
          exact ⟨e, hm.1, hm.2, by simp [hre], by simp [hre]⟩
  · decide

/-- C9, witness: the universally quantified part applied at the
concrete timeline with the impossible month and day. -/
theorem C9_date_filter_is_syntactic_witness :
    ∃ e, e ∈ [(⟨chars "2025-13-99", chars "Whatever Happened"⟩ : Entry)] ∧
      isoShaped e.date = true ∧
      (⟨chars "A", chars "Whatever Happened", chars "2025-13-99",
        chars "case_received", chars "ts"⟩ : Record).status_date = e.date ∧
      (⟨chars "A", chars "Whatever Happened", chars "2025-13-99",
        chars "case_received", chars "ts"⟩ : Record).status = e.status :=
  C9_date_filter_is_syntactic.1 [⟨chars "2025-13-99", chars "Whatever Happened"⟩]
    (chars "A") (chars "ts") _ (by decide)

/-- C10: whenever the classifier has both a case_received pick and an
interview_cancelled pick, their (date, status) pairs differ — the
case_received pick fails the cancellation predicate while the
interview_cancelled pick satisfies it, so their status texts cannot be
equal — and therefore both records appear in the output: the duplicate
guard on the interview_cancelled record never fires. -/
theorem C10_cancellation_never_suppressed (tl : List Entry) (rn ts : List Char)
    (ecr eic : Entry) (hcr : crPick tl = some ecr) (hic : icPick tl = some eic) :
    (ecr.date, ecr.status) ≠ (eic.date, eic.status) ∧
    (⟨rn, ecr.status, ecr.date, chars "case_received", ts⟩ : Record) ∈
      parse_timeline_entries tl rn ts ∧
    (⟨rn, eic.status, eic.date, chars "interview_cancelled", ts⟩ : Record) ∈
      parse_timeline_entries tl rn ts := by
  have hP1 : icPred ecr.status = false := by
    have h : List.find? (fun e => !(icPred e.status)) (sortedValid tl) = some ecr := hcr
    simpa using List.find?_some h
  have hP2 : icPred eic.status = true := by
    have h : List.find? (fun e => icPred e.status) (sortedValid tl) = some eic := hic
    simpa using List.find?_some h
  have hne : (ecr.date, ecr.status) ≠ (eic.date, eic.status) := by
    intro h
    have h2 : ecr.status = eic.status := congrArg Prod.snd h
    rw [h2] at hP1
    rw [hP1] at hP2
    exact Bool.false_ne_true hP2
  have hsv : sortedValid tl ≠ [] := by
    intro h0
    rw [crPick, h0] at hcr
    simp at hcr
  have hve : validEntries tl ≠ [] := by
    intro h0
    apply hsv
    simp [sortedValid, h0, List.insertionSort]
  have htl : tl ≠ [] := by
    intro h0
    apply hve
    simp [validEntries, h0]
  have hout : parse_timeline_entries tl rn ts =
      buildRecords rn ts (crPick tl) (icPick tl) (lsPick tl) := by
    simp [parse_timeline_entries, htl, hve]
  rw [hout, hcr, hic]
  have hne2 : ¬(eic.date = ecr.date ∧ eic.status = ecr.status) := by
    rintro ⟨h1, h2⟩
    exact hne (by rw [h1, h2])
  refine ⟨hne, ?_, ?_⟩
  · simp [buildRecords]
  · simp [buildRecords, hne2]

/-- C10, witness at a concrete timeline with both picks. -/
theorem C10_cancellation_never_suppressed_witness :
    ((⟨chars "2025-06-01", chars "Case Was Updated"⟩ : Entry).date,
      (⟨chars "2025-06-01", chars "Case Was Updated"⟩ : Entry).status) ≠
      ((⟨chars "2025-05-09", chars "Interview Cancelled"⟩ : Entry).date,
        (⟨chars "2025-05-09", chars "Interview Cancelled"⟩ : Entry).status) ∧
    (⟨chars "A", (⟨chars "2025-06-01", chars "Case Was Updated"⟩ : Entry).status,
      (⟨chars "2025-06-01", chars "Case Was Updated"⟩ : Entry).date,
      chars "case_received", chars "ts"⟩ : Record) ∈
      parse_timeline_entries
        [⟨chars "2025-05-09", chars "Interview Cancelled"⟩,
         ⟨chars "2025-06-01", chars "Case Was Updated"⟩] (chars "A") (chars "ts") ∧
    (⟨chars "A", (⟨chars "2025-05-09", chars "Interview Cancelled"⟩ : Entry).status,
      (⟨chars "2025-05-09", chars "Interview Cancelled"⟩ : Entry).date,
      chars "interview_cancelled", chars "ts"⟩ : Record) ∈
      parse_timeline_entries
        [⟨chars "2025-05-09", chars "Interview Cancelled"⟩,
         ⟨chars "2025-06-01", chars "Case Was Updated"⟩] (chars "A") (chars "ts") :=
  C10_cancellation_never_suppressed
    [⟨chars "2025-05-09", chars "Interview Cancelled"⟩,
     ⟨chars "2025-06-01", chars "Case Was Updated"⟩]
    (chars "A") (chars "ts")
    ⟨chars "2025-06-01", chars "Case Was Updated"⟩
    ⟨chars "2025-05-09", chars "Interview Cancelled"⟩
    (by decide) (by decide)

theorem sortedValid_perm_eq {tl tl' : List Entry} (h : tl.Perm tl')
    (hd : tl.Pairwise (fun a b => a.date ≠ b.date)) :
    sortedValid tl = sortedValid tl' := by
  have hvp : (validEntries tl).Perm (validEntries tl') := by
    unfold validEntries
    exact h.filter _
  have hd1 : (validEntries tl).Pairwise (fun a b => a.date ≠ b.date) := by
    unfold validEntries
    exact hd.filter _
  haveI htot : IsTotal Entry (fun a b => entLe a b = true) :=
    ⟨fun a b => by
      have := lexLe_total a.date b.date
      simpa [entLe] using this⟩
  haveI htr : IsTrans Entry (fun a b => entLe a b = true) :=
    ⟨fun a b c hab hbc => by
      have h1 : lexLe a.date b.date = true := hab
      have h2 : lexLe b.date c.date = true := hbc
      exact lexLe_trans a.date b.date c.date h1 h2⟩
  have hs1 : List.Sorted (fun a b => entLe a b = true) (sortedValid tl) :=
    List.sorted_insertionSort (fun a b => entLe a b = true) (validEntries tl)
  have hs2 : List.Sorted (fun a b => entLe a b = true) (sortedValid tl') :=
    List.sorted_insertionSort (fun a b => entLe a b = true) (validEntries tl')
  have hsymm : ∀ {x y : Entry}, x.date ≠ y.date → y.date ≠ x.date :=
    fun h => h.symm
  have hp1 : (sortedValid tl).Pairwise (fun a b => a.date ≠ b.date) :=
    (List.Perm.pairwise_iff hsymm
      (List.perm_insertionSort (fun a b => entLe a b = true) (validEntries tl))).2 hd1
  have hp2 : (sortedValid tl').Pairwise (fun a b => a.date ≠ b.date) :=
    (List.Perm.pairwise_iff hsymm
      (List.perm_insertionSort (fun a b => entLe a b = true) (validEntries tl'))).2
      ((List.Perm.pairwise_iff hsymm hvp).1 hd1)
  have hperm2 : (sortedValid tl).Perm (sortedValid tl') :=
    ((List.perm_insertionSort (fun a b => entLe a b = true) (validEntries tl)).trans
      hvp).trans
      (List.perm_insertionSort (fun a b => entLe a b = true) (validEntries tl')).symm
  haveI hanti : IsAntisymm Entry (fun a b => entLe a b = true ∧ a.date ≠ b.date) :=
    ⟨fun a b hab hba => absurd (lexLe_antisymm a.date b.date hab.1 hba.1) hab.2⟩
  exact List.eq_of_perm_of_sorted hperm2 (hs1.and hp1) (hs2.and hp2)

/-- C4, amended: the classifier's output is invariant under
permutations of the input timeline as long as the entries kept by the
date filter carry pairwise distinct dates (stated here with pairwise
distinct dates on the whole input); for entries sharing a date the
stable sort preserves input order, so such permutations can change the
picks, as the counterexample shows. -/
theorem C4_classifier_order_invariant (tl tl' : List Entry) (rn ts : List Char)
    (hperm : tl.Perm tl') (hdates : tl.Pairwise (fun a b => a.date ≠ b.date)) :
    parse_timeline_entries tl rn ts = parse_timeline_entries tl' rn ts := by
  have hsv := sortedValid_perm_eq hperm hdates
  by_cases htl : tl = []
  · have htl' : tl' = [] := by
      subst htl
      exact hperm.symm.eq_nil
    simp [parse_timeline_entries, htl, htl']
  · have htl' : tl' ≠ [] := by
      intro h0
      exact htl ((hperm.trans (h0 ▸ List.Perm.refl tl')).eq_nil)
    have hvp : (validEntries tl).Perm (validEntries tl') := by
      unfold validEntries
      exact hperm.filter _
    by_cases hve : validEntries tl = []
    · have hve' : validEntries tl' = [] := by
        rw [hve] at hvp
        exact hvp.symm.eq_nil
      simp [parse_timeline_entries, htl, htl', hve, hve']
    · have hve' : validEntries tl' ≠ [] := by
        intro h0
        rw [h0] at hvp
        exact hve hvp.eq_nil
      simp [parse_timeline_entries, htl, htl', hve, hve', crPick, icPick, lsPick, hsv]

/-- C4, witness: a permutation of a two-entry timeline with distinct
dates classifies identically. -/
theorem C4_classifier_order_invariant_witness :
    parse_timeline_entries
      [⟨chars "2025-02-02", chars "Xray"⟩, ⟨chars "2025-01-01", chars "Yankee"⟩]
      (chars "A") (chars "ts") =
    parse_timeline_entries
      [⟨chars "2025-01-01", chars "Yankee"⟩, ⟨chars "2025-02-02", chars "Xray"⟩]
      (chars "A") (chars "ts") :=
  C4_classifier_order_invariant
    [⟨chars "2025-02-02", chars "Xray"⟩, ⟨chars "2025-01-01", chars "Yankee"⟩]
    [⟨chars "2025-01-01", chars "Yankee"⟩, ⟨chars "2025-02-02", chars "Xray"⟩]
    (chars "A") (chars "ts") (by decide) (by decide)

theorem filter_sub {α : Type} (l : List α) (P Q : α → Bool)
    (h : ∀ x, P x = true → Q x = true) :
    (l.filter Q).filter P = l.filter P := by
  induction l with
  | nil => rfl
  | cons a l ih =>
    by_cases hq : Q a = true
    · by_cases hp : P a = true <;> simp [List.filter_cons, hq, hp, ih]
    · have hp : P a = false := by
        cases hP : P a with
        | false => rfl
        | true => exact absurd (h a hP) (by simp [hq])
      simp [List.filter_cons, hq, hp, ih]

theorem filter_contra {α : Type} (l : List α) (P Q : α → Bool)
    (h : ∀ x, P x = true → Q x = false) :
    (l.filter Q).filter P = [] := by
  induction l with
  | nil => rfl
  | cons a l ih =>
    by_cases hq : Q a = true
    · have hp : P a = false := by
        cases hP : P a with
        | false => rfl
        | true => exact absurd (h a hP) (by simp [hq])
      simp [List.filter_cons, hq, hp, ih]
    · simp [List.filter_cons, hq, ih]

theorem filter_key_comm (l : List Record) (c t : List Char) :
    (l.filter (fun r => r.receipt_number = c)).filter (fun r => r.status_type = t) =
      l.filter (fun r => r.receipt_number = c ∧ r.status_type = t) := by
  rw [List.filter_filter]
  apply List.filter_congr
  intro a _
  by_cases h1 : a.status_type = t <;> by_cases h2 : a.receipt_number = c <;>
    simp [h1, h2]


theorem mergeStep_eq_nil {ex : List Record} {c : List Char}
    {q : List Record × List Record} {rec : Record}
    (hms : ex.filter (fun r => r.status_type = rec.status_type) = []) :
    mergeStep ex c q rec = (q.1, q.2 ++ [rec]) := by
  unfold mergeStep
  rw [hms]

theorem mergeStep_eq_diff {ex : List Record} {c : List Char}
    {q : List Record × List Record} {rec e : Record} {tail : List Record}
    (hms : ex.filter (fun r => r.status_type = rec.status_type) = e :: tail)
    (hd : e.status_date ≠ rec.status_date ∨ e.status ≠ rec.status) :
    mergeStep ex c q rec =
      (q.1.filter (fun r => ¬(r.receipt_number = c ∧ r.status_type = rec.status_type)),
        q.2 ++ [rec]) := by
  unfold mergeStep
  rw [hms]
  exact if_pos hd

theorem mergeStep_eq_same {ex : List Record} {c : List Char}
    {q : List Record × List Record} {rec e : Record} {tail : List Record}
    (hms : ex.filter (fun r => r.status_type = rec.status_type) = e :: tail)
    (hd : ¬(e.status_date ≠ rec.status_date ∨ e.status ≠ rec.status)) :
    mergeStep ex c q rec = q := by
  unfold mergeStep
  rw [hms]
  exact if_neg hd

theorem mergeFold_fst_sublist (ex : List Record) (c : List Char) :
    ∀ (rs : List Record) (q : List Record × List Record),
      ((rs.foldl (mergeStep ex c) q).1).Sublist q.1 := by
  intro rs
  induction rs with
  | nil => intro q; exact List.Sublist.refl _
  | cons rec rs ih =>
    intro q
    have hstep : ((mergeStep ex c q rec).1).Sublist q.1 := by
      rcases hms : ex.filter (fun r => r.status_type = rec.status_type) with _ | ⟨e, tail⟩
      · rw [mergeStep_eq_nil hms]
      · by_cases hd : e.status_date ≠ rec.status_date ∨ e.status ≠ rec.status
        · rw [mergeStep_eq_diff hms hd]
          exact List.filter_sublist _
        · rw [mergeStep_eq_same hms hd]
    exact (ih (mergeStep ex c q rec)).trans hstep

theorem mergeFold_snd_mem (ex : List Record) (c : List Char) :
    ∀ (rs : List Record) (q : List Record × List Record),
      ∃ ext, (rs.foldl (mergeStep ex c) q).2 = q.2 ++ ext ∧ ∀ r ∈ ext, r ∈ rs := by
  intro rs
  induction rs with
  | nil => intro q; exact ⟨[], by simp, by simp⟩
  | cons rec rs ih =>
    intro q
    rcases ih (mergeStep ex c q rec) with ⟨ext, hext, hmem⟩
    have hstep : (mergeStep ex c q rec).2 = q.2 ∨ (mergeStep ex c q rec).2 = q.2 ++ [rec] := by
      rcases hms : ex.filter (fun r => r.status_type = rec.status_type) with _ | ⟨e, tail⟩
      · rw [mergeStep_eq_nil hms]; right; rfl
      · by_cases hd : e.status_date ≠ rec.status_date ∨ e.status ≠ rec.status
        · rw [mergeStep_eq_diff hms hd]; right; rfl
        · rw [mergeStep_eq_same hms hd]; left; rfl
    rcases hstep with h | h
    · refine ⟨ext, ?_, ?_⟩
      · rw [List.foldl_cons, hext, h]
      · intro r hr
        exact List.mem_cons_of_mem _ (hmem r hr)
    · refine ⟨rec :: ext, ?_, ?_⟩
      · rw [List.foldl_cons, hext, h, List.append_assoc, List.singleton_append]
      · intro r hr
        rcases List.mem_cons.1 hr with h1 | h1
        · exact h1 ▸ List.mem_cons_self _ _
        · exact List.mem_cons_of_mem _ (hmem r h1)

theorem mergeFold_fst_filter (ex : List Record) (c : List Char) :
    ∀ (rs : List Record) (q : List Record × List Record) (t : List Char),
      (∀ r ∈ rs, r.status_type ≠ t) →
      ((rs.foldl (mergeStep ex c) q).1).filter
          (fun x => x.receipt_number = c ∧ x.status_type = t) =
        q.1.filter (fun x => x.receipt_number = c ∧ x.status_type = t) := by
  intro rs
  induction rs with
  | nil => intro q t _; rfl
  | cons rec rs ih =>
    intro q t hne
    have hrec : rec.status_type ≠ t := hne rec (List.mem_cons_self _ _)
    have hstep : ((mergeStep ex c q rec).1).filter
        (fun x => x.receipt_number = c ∧ x.status_type = t) =
        q.1.filter (fun x => x.receipt_number = c ∧ x.status_type = t) := by
      rcases hms : ex.filter (fun r => r.status_type = rec.status_type) with _ | ⟨e, tail⟩
      · rw [mergeStep_eq_nil hms]
      · by_cases hd : e.status_date ≠ rec.status_date ∨ e.status ≠ rec.status
        · rw [mergeStep_eq_diff hms hd]
          apply filter_sub
          intro x hx
          simp only [decide_eq_true_eq] at hx ⊢
          intro hcon
          exact hrec (hcon.2 ▸ hx.2 ▸ rfl)
        · rw [mergeStep_eq_same hms hd]
    rw [List.foldl_cons,
      ih (mergeStep ex c q rec) t (fun r hr => hne r (List.mem_cons_of_mem _ hr)), hstep]

theorem mergeFold_snd_filter (ex : List Record) (c : List Char) :
    ∀ (rs : List Record) (q : List Record × List Record) (t : List Char),
      (∀ r ∈ rs, r.status_type ≠ t) →
      ((rs.foldl (mergeStep ex c) q).2).filter (fun x => x.status_type = t) =
        q.2.filter (fun x => x.status_type = t) := by
  intro rs q t hne
  rcases mergeFold_snd_mem ex c rs q with ⟨ext, hext, hmem⟩
  rw [hext, List.filter_append]
  have hnil : ext.filter (fun x => x.status_type = t) = [] := by
    rw [List.filter_eq_nil_iff]
    intro a ha
    simp only [decide_eq_true_eq]
    exact hne a (hmem a ha)
  rw [hnil, List.append_nil]

theorem mergeFold_main (st ex : List Record) (c : List Char)
    (hex : ex = st.filter (fun r => r.receipt_number = c)) :
    ∀ (rs : List Record) (q1 q2 : List Record),
      rs.Pairwise (fun a b => a.status_type ≠ b.status_type) →
      (∀ r ∈ rs,
        q1.filter (fun x => x.receipt_number = c ∧ x.status_type = r.status_type) =
          st.filter (fun x => x.receipt_number = c ∧ x.status_type = r.status_type)) →
      (∀ r ∈ rs, q2.filter (fun x => x.status_type = r.status_type) = []) →
      ∀ rec ∈ rs,
        ((rs.foldl (mergeStep ex c) (q1, q2)).1).filter
            (fun x => x.receipt_number = c ∧ x.status_type = rec.status_type) ++
          ((rs.foldl (mergeStep ex c) (q1, q2)).2).filter
            (fun x => x.status_type = rec.status_type) =
        (match ex.filter (fun x => x.status_type = rec.status_type) with
         | [] => [rec]
         | e :: _ =>
           if e.status_date ≠ rec.status_date ∨ e.status ≠ rec.status then [rec]
           else st.filter
             (fun x => x.receipt_number = c ∧ x.status_type = rec.status_type)) := by
  intro rs
  induction rs with
  | nil => intro q1 q2 _ _ _ rec h; cases h
  | cons rec0 rs ih =>
    intro q1 q2 hp hA hB rec hrec
    rcases List.pairwise_cons.1 hp with ⟨hhead, htail⟩
    have hkey : ex.filter (fun x => x.status_type = rec0.status_type) =
        st.filter (fun x => x.receipt_number = c ∧ x.status_type = rec0.status_type) := by
      rw [hex, filter_key_comm]
    rcases List.mem_cons.1 hrec with hcase | hcase
    · subst hcase
      have hne : ∀ r ∈ rs, r.status_type ≠ rec.status_type :=
        fun r hr => (hhead r hr).symm
      have hfst := mergeFold_fst_filter ex c rs (mergeStep ex c (q1, q2) rec)
        rec.status_type hne
      have hsnd := mergeFold_snd_filter ex c rs (mergeStep ex c (q1, q2) rec)
        rec.status_type hne
      rw [List.foldl_cons, hfst, hsnd]
      rcases hms : ex.filter (fun x => x.status_type = rec.status_type) with _ | ⟨e, tail⟩
      · rw [mergeStep_eq_nil hms]
        have hstk : st.filter
            (fun x => x.receipt_number = c ∧ x.status_type = rec.status_type) = [] := by
          rw [← hkey, hms]
        rw [hA rec (List.mem_cons_self _ _), hstk, List.filter_append,
          hB rec (List.mem_cons_self _ _), hms]
        simp
      · by_cases hd : e.status_date ≠ rec.status_date ∨ e.status ≠ rec.status
        · rw [mergeStep_eq_diff hms hd]
          have hcontra : (q1.filter
              (fun r => ¬(r.receipt_number = c ∧ r.status_type = rec.status_type))).filter
              (fun x => x.receipt_number = c ∧ x.status_type = rec.status_type) = [] := by
            apply filter_contra
            intro x hx
            simp only [decide_eq_true_eq] at hx ⊢
            simp [hx]
          rw [hcontra, List.filter_append, hB rec (List.mem_cons_self _ _), hms]
          simp [hd]
        · rw [mergeStep_eq_same hms hd]
          rw [hA rec (List.mem_cons_self _ _), hB rec (List.mem_cons_self _ _), hms]
          simp [hd]
    · have hA' : ∀ r ∈ rs,
          ((mergeStep ex c (q1, q2) rec0).1).filter
            (fun x => x.receipt_number = c ∧ x.status_type = r.status_type) =
          st.filter (fun x => x.receipt_number = c ∧ x.status_type = r.status_type) := by
        intro r hr
        have hne0 : rec0.status_type ≠ r.status_type := hhead r hr
        have hq1 : ((mergeStep ex c (q1, q2) rec0).1).filter
            (fun x => x.receipt_number = c ∧ x.status_type = r.status_type) =
            q1.filter (fun x => x.receipt_number = c ∧ x.status_type = r.status_type) := by
          rcases hms : ex.filter (fun x => x.status_type = rec0.status_type) with _ | ⟨e, tail⟩
          · rw [mergeStep_eq_nil hms]
          · by_cases hd : e.status_date ≠ rec0.status_date ∨ e.status ≠ rec0.status
            · rw [mergeStep_eq_diff hms hd]
              apply filter_sub
              intro x hx
              simp only [decide_eq_true_eq] at hx ⊢
              intro hcon
              exact hne0 (hcon.2 ▸ hx.2 ▸ rfl)
            · rw [mergeStep_eq_same hms hd]
        rw [hq1]
        exact hA r (List.mem_cons_of_mem _ hr)
      have hB' : ∀ r ∈ rs,
          ((mergeStep ex c (q1, q2) rec0).2).filter
            (fun x => x.status_type = r.status_type) = [] := by
        intro r hr
        have hne0 : rec0.status_type ≠ r.status_type := hhead r hr
        have hq2 : (mergeStep ex c (q1, q2) rec0).2 = q2 ∨
            (mergeStep ex c (q1, q2) rec0).2 = q2 ++ [rec0] := by
          rcases hms : ex.filter (fun x => x.status_type = rec0.status_type) with _ | ⟨e, tail⟩
          · rw [mergeStep_eq_nil hms]; right; rfl
          · by_cases hd : e.status_date ≠ rec0.status_date ∨ e.status ≠ rec0.status
            · rw [mergeStep_eq_diff hms hd]; right; rfl
            · rw [mergeStep_eq_same hms hd]; left; rfl
        rcases hq2 with h | h
        · rw [h]
          exact hB r (List.mem_cons_of_mem _ hr)
        · rw [h, List.filter_append, hB r (List.mem_cons_of_mem _ hr)]
          simp [hne0]
      have := ih ((mergeStep ex c (q1, q2) rec0).1) ((mergeStep ex c (q1, q2) rec0).2)
        htail hA' hB' rec hcase
      simpa [List.foldl_cons] using this

theorem filter_type_pairwise :
    ∀ (rs : List Record),
      rs.Pairwise (fun a b => a.status_type ≠ b.status_type) →
      ∀ rec ∈ rs, rs.filter (fun x => x.status_type = rec.status_type) = [rec] := by
  intro rs
  induction rs with
  | nil => intro _ rec h; cases h
  | cons r0 rs ih =>
    intro hp rec hrec
    rcases List.pairwise_cons.1 hp with ⟨hhead, htail⟩
    rcases List.mem_cons.1 hrec with h | h
    · subst h
      have hnil : rs.filter (fun x => x.status_type = rec.status_type) = [] := by
        rw [List.filter_eq_nil_iff]
        intro a ha
        simp only [decide_eq_true_eq]
        exact fun hcon => hhead a ha (hcon ▸ rfl)
      simp [List.filter_cons, hnil]
    · have hne : r0.status_type ≠ rec.status_type := hhead rec h
      simp [List.filter_cons, hne, ih htail rec h]

theorem mergeFold_noop (ex : List Record) (c : List Char) :
    ∀ (rs : List Record) (q : List Record × List Record),
      (∀ rec ∈ rs, ∃ e tail,
        ex.filter (fun x => x.status_type = rec.status_type) = e :: tail ∧
        e.status_date = rec.status_date ∧ e.status = rec.status) →
      rs.foldl (mergeStep ex c) q = q := by
  intro rs
  induction rs with
  | nil => intro q _; rfl
  | cons rec rs ih =>
    intro q hall
    rcases hall rec (List.mem_cons_self _ _) with ⟨e, tail, hms, h1, h2⟩
    have hq : mergeStep ex c q rec = q := mergeStep_eq_same hms (by simp [h1, h2])
    rw [List.foldl_cons, hq]
    exact ih q (fun r hr => hall r (List.mem_cons_of_mem _ hr))

/-- C6: the per-case merge is idempotent.  Merging a case's classified
records (all carrying that caseId, with pairwise distinct status
types) when a record of the same (caseId, statusType) with identical
(statusDate, status) is present changes nothing, so merging the same
case twice with identical records leaves the store identical after the
second merge. -/
theorem C6_merge_idempotent (store : List Record) (c : List Char) (recs : List Record)
    (hrc : ∀ r ∈ recs, r.receipt_number = c)
    (hp : recs.Pairwise (fun a b => a.status_type ≠ b.status_type)) :
    mergedStore (mergedStore store c recs) c recs = mergedStore store c recs := by
  by_cases hE : store.filter (fun r => r.receipt_number = c) = []
  · have h1 : mergedStore store c recs = store ++ recs := by
      simp [mergedStore, mergeCase, hE]
    by_cases hr0 : recs = []
    · subst hr0
      simp [mergedStore, mergeCase, hE]
    · have hfr : recs.filter (fun r => r.receipt_number = c) = recs :=
        List.filter_eq_self.mpr (fun a ha => by simp [hrc a ha])
      have hexS : (store ++ recs).filter (fun r => r.receipt_number = c) = recs := by
        rw [List.filter_append, hE, List.nil_append, hfr]
      have hnoop : recs.foldl (mergeStep recs c) (store ++ recs, []) = (store ++ recs, []) := by
        apply mergeFold_noop
        intro rec hrec
        exact ⟨rec, _, filter_type_pairwise recs hp rec hrec, rfl, rfl⟩
      rw [h1]
      simp [mergedStore, mergeCase, hexS, hr0, hnoop]
  · have hfoldeq : mergedStore store c recs =
        (recs.foldl (mergeStep (store.filter (fun r => r.receipt_number = c)) c)
          (store, [])).1 ++
        (recs.foldl (mergeStep (store.filter (fun r => r.receipt_number = c)) c)
          (store, [])).2 := by
      simp [mergedStore, mergeCase, hE]
    by_cases hr0 : recs = []
    · subst hr0
      simp [mergedStore, mergeCase, hE]
    · obtain ⟨p1, p2, hpp⟩ : ∃ p1 p2,
          recs.foldl (mergeStep (store.filter (fun r => r.receipt_number = c)) c)
            (store, []) = (p1, p2) :=
        ⟨_, _, rfl⟩
      rw [hpp] at hfoldeq
      simp only at hfoldeq
      have hmain := mergeFold_main store
        (store.filter (fun r => r.receipt_number = c)) c rfl recs store [] hp
        (fun r _ => rfl) (fun r _ => rfl)
      have hmain2 : ∀ rec ∈ recs,
          p1.filter (fun x => x.receipt_number = c ∧ x.status_type = rec.status_type) ++
            p2.filter (fun x => x.status_type = rec.status_type) =
          (match (store.filter (fun r => r.receipt_number = c)).filter
              (fun x => x.status_type = rec.status_type) with
           | [] => [rec]
           | e :: _ =>
             if e.status_date ≠ rec.status_date ∨ e.status ≠ rec.status then [rec]
             else store.filter
               (fun x => x.receipt_number = c ∧ x.status_type = rec.status_type)) := by
        intro rec hrec
        have h := hmain rec hrec
        rw [hpp] at h
        exact h
      have hp2rc : ∀ r ∈ p2, r.receipt_number = c := by
        rcases mergeFold_snd_mem (store.filter (fun r => r.receipt_number = c)) c recs
          (store, []) with ⟨ext, hext, hmem⟩
        rw [hpp] at hext
        simp only at hext
        intro r hr
        rw [hext] at hr
        simp only [List.nil_append] at hr
        exact hrc r (hmem r hr)
      have hid : ∀ t : List Char,
          ((p1 ++ p2).filter (fun r => r.receipt_number = c)).filter
              (fun x => x.status_type = t) =
            p1.filter (fun x => x.receipt_number = c ∧ x.status_type = t) ++
              p2.filter (fun x => x.status_type = t) := by
        intro t
        rw [List.filter_append, List.filter_append]
        congr 1
        · exact filter_key_comm p1 c t
        · have hfp2 : p2.filter (fun r => r.receipt_number = c) = p2 :=
            List.filter_eq_self.mpr (fun a ha => by simp [hp2rc a ha])
          rw [hfp2]
      obtain ⟨rec0, rs0, hrs⟩ : ∃ a l, recs = a :: l := by
        rcases recs with _ | ⟨a, l⟩
        · exact absurd rfl hr0
        · exact ⟨a, l, rfl⟩
      have hrec0 : rec0 ∈ recs := by rw [hrs]; exact List.mem_cons_self _ _
      have hex2ne : (p1 ++ p2).filter (fun r => r.receipt_number = c) ≠ [] := by
        intro h0
        have hidr := hid rec0.status_type
        rw [h0] at hidr
        simp only [List.filter_nil] at hidr
        have hm0 := hmain2 rec0 hrec0
        rw [← hidr] at hm0
        rcases hms : (store.filter (fun r => r.receipt_number = c)).filter
            (fun x => x.status_type = rec0.status_type) with _ | ⟨e, tail⟩
        · rw [hms] at hm0
          simp at hm0
        · rw [hms] at hm0
          by_cases hd : e.status_date ≠ rec0.status_date ∨ e.status ≠ rec0.status
          · simp [hd] at hm0
          · simp only [if_neg hd] at hm0
            rw [← filter_key_comm, hms] at hm0
            simp at hm0
      have hnoop2 : recs.foldl
          (mergeStep ((p1 ++ p2).filter (fun r => r.receipt_number = c)) c)
          (p1 ++ p2, []) = (p1 ++ p2, []) := by
        apply mergeFold_noop
        intro rec hrec
        have hfin := (hid rec.status_type).trans (hmain2 rec hrec)
        rcases hms : (store.filter (fun r => r.receipt_number = c)).filter
            (fun x => x.status_type = rec.status_type) with _ | ⟨e, tail⟩
        · refine ⟨rec, [], ?_, rfl, rfl⟩
          rw [hfin, hms]
        · by_cases hd : e.status_date ≠ rec.status_date ∨ e.status ≠ rec.status
          · refine ⟨rec, [], ?_, rfl, rfl⟩
            rw [hfin, hms]
            exact if_pos hd
          · have hstk : store.filter
                (fun x => x.receipt_number = c ∧ x.status_type = rec.status_type) =
                e :: tail := by
              rw [← filter_key_comm, hms]
            push_neg at hd
            refine ⟨e, tail, ?_, hd.1, hd.2⟩
            rw [hfin, hms]
            have hif : (if e.status_date ≠ rec.status_date ∨ e.status ≠ rec.status
                then [rec]
                else store.filter
                  (fun x => x.receipt_number = c ∧ x.status_type = rec.status_type)) =
                e :: tail := by
              rw [if_neg (by simp [hd.1, hd.2])]
              exact hstk
            exact hif
      rw [hfoldeq]
      simp only [mergedStore, mergeCase]
      rw [if_neg hex2ne]
      rw [hnoop2]
      simp

/-- C6, witness: merging the same classified records twice over a store
that already holds a differing case_received row. -/
theorem C6_merge_idempotent_witness :
    mergedStore
      (mergedStore
        [⟨chars "A", chars "Old", chars "2025-01-01", chars "case_received", chars "t0"⟩]
        (chars "A")
        [⟨chars "A", chars "Case Was Received", chars "2025-02-02",
          chars "case_received", chars "t1"⟩,
         ⟨chars "A", chars "Card Was Delivered", chars "2025-03-03",
          chars "last_status", chars "t1"⟩])
      (chars "A")
      [⟨chars "A", chars "Case Was Received", chars "2025-02-02",
        chars "case_received", chars "t1"⟩,
       ⟨chars "A", chars "Card Was Delivered", chars "2025-03-03",
        chars "last_status", chars "t1"⟩] =
    mergedStore
      [⟨chars "A", chars "Old", chars "2025-01-01", chars "case_received", chars "t0"⟩]
      (chars "A")
      [⟨chars "A", chars "Case Was Received", chars "2025-02-02",
        chars "case_received", chars "t1"⟩,
       ⟨chars "A", chars "Card Was Delivered", chars "2025-03-03",
        chars "last_status", chars "t1"⟩] :=
  C6_merge_idempotent
    [⟨chars "A", chars "Old", chars "2025-01-01", chars "case_received", chars "t0"⟩]
    (chars "A")
    [⟨chars "A", chars "Case Was Received", chars "2025-02-02",
      chars "case_received", chars "t1"⟩,
     ⟨chars "A", chars "Card Was Delivered", chars "2025-03-03",
      chars "last_status", chars "t1"⟩]
    (by decide) (by decide)

theorem keyCount_append (l1 l2 : List Record) (c t : List Char) :
    keyCount (l1 ++ l2) c t = keyCount l1 c t + keyCount l2 c t := by
  simp [keyCount, List.filter_append]

theorem keyCount_sublist {l1 l2 : List Record} (h : l1.Sublist l2) (c t : List Char) :
    keyCount l1 c t ≤ keyCount l2 c t :=
  (h.filter _).length_le

theorem keyCount_perm {l1 l2 : List Record} (h : l1.Perm l2) (c t : List Char) :
    keyCount l1 c t = keyCount l2 c t :=
  (h.filter _).length_eq

theorem keyCount_zero_of_receipts {l : List Record} {c : List Char}
    (h : ∀ r ∈ l, r.receipt_number ≠ c) (t : List Char) : keyCount l c t = 0 := by
  unfold keyCount
  rw [List.filter_eq_nil_iff.mpr]
  · rfl
  · intro a ha
    simp only [decide_eq_true_eq]
    exact fun hcon => h a ha hcon.1

theorem typeCount_le_one :
    ∀ (rs : List Record),
      rs.Pairwise (fun a b => a.status_type ≠ b.status_type) →
      ∀ t : List Char, (rs.filter (fun x => x.status_type = t)).length ≤ 1 := by
  intro rs
  induction rs with
  | nil => intro _ t; simp
  | cons r0 rs ih =>
    intro hp t
    rcases List.pairwise_cons.1 hp with ⟨hhead, htail⟩
    by_cases h0 : r0.status_type = t
    · have hnil : rs.filter (fun x => x.status_type = t) = [] := by
        rw [List.filter_eq_nil_iff]
        intro a ha
        simp only [decide_eq_true_eq]
        exact fun hcon => hhead a ha (h0 ▸ hcon ▸ rfl)
      simp [List.filter_cons, h0, hnil]
    · simpa [List.filter_cons, h0] using ih htail t

theorem keyCount_eq_typeCount {l : List Record} {c : List Char}
    (h : ∀ r ∈ l, r.receipt_number = c) (t : List Char) :
    keyCount l c t = (l.filter (fun x => x.status_type = t)).length := by
  unfold keyCount
  congr 1
  apply List.filter_congr
  intro a ha
  simp [h a ha]

theorem classifier_shape (tl : List Entry) (rn ts : List Char) :
    (∀ r ∈ parse_timeline_entries tl rn ts,
      r.receipt_number = rn ∧
        (r.status_type = chars "case_received" ∨
         r.status_type = chars "interview_cancelled" ∨
         r.status_type = chars "last_status")) ∧
    (parse_timeline_entries tl rn ts).Pairwise
      (fun a b => a.status_type ≠ b.status_type) := by
  by_cases htl : tl = []
  · simp [parse_timeline_entries, htl]
  · by_cases hve : validEntries tl = []
    · simp [parse_timeline_entries, htl, hve]
    · simp only [parse_timeline_entries, if_neg htl, if_neg hve]
      constructor
      · intro r hr
        rcases buildRecords_mem hr with ⟨e, _, hre⟩ | ⟨e, _, hre⟩ | ⟨e, _, hre⟩ <;>
          subst hre <;> simp
      · rcases crPick tl with _ | ecr <;> rcases icPick tl with _ | eic <;>
          rcases lsPick tl with _ | els <;>
          simp only [buildRecords] <;>
          (try split_ifs) <;>
          simp [List.pairwise_cons] <;>
          decide

theorem uniqueFirst_nodup :
    ∀ (l : List (List Char)) (seen : List (List Char)),
      (uniqueFirst seen l).Nodup ∧ ∀ x ∈ uniqueFirst seen l, x ∉ seen := by
  intro l
  induction l with
  | nil => intro seen; exact ⟨List.nodup_nil, by simp [uniqueFirst]⟩
  | cons x xs ih =>
    intro seen
    by_cases hx : x ∈ seen
    · simpa [uniqueFirst, hx] using ih seen
    · rcases ih (x :: seen) with ⟨hnd, hmem⟩
      constructor
      · rw [uniqueFirst, if_neg hx, List.nodup_cons]
        exact ⟨fun hcon => (hmem x hcon) (List.mem_cons_self _ _), hnd⟩
      · intro y hy
        rw [uniqueFirst, if_neg hx] at hy
        rcases List.mem_cons.1 hy with h | h
        · subst h; exact hx
        · exact fun hc => (hmem y h) (List.mem_cons_of_mem _ hc)

theorem lastOfType_sub {ce : List Record} {t : List Char} :
    ∀ r ∈ lastOfType ce t, r ∈ ce ∧ r.status_type = t := by
  intro r hr
  unfold lastOfType at hr
  rcases hg : (ce.filter (fun x => x.status_type = t)).getLast? with _ | e
  · rw [hg] at hr; cases hr
  · rw [hg] at hr
    simp only [List.mem_singleton] at hr
    subst hr
    have hm := mem_of_getLast?_eq_some hg
    rw [List.mem_filter] at hm
    exact ⟨hm.1, by simpa using hm.2⟩

theorem lastOfType_len (ce : List Record) (t : List Char) :
    (lastOfType ce t).length ≤ 1 := by
  unfold lastOfType
  rcases hg : (ce.filter (fun x => x.status_type = t)).getLast? with _ | e <;>
    rw [hg] <;> simp

theorem lastOfType_filter_ne (ce : List Record) (t t2 : List Char) (h : t ≠ t2) :
    (lastOfType ce t).filter (fun x => x.status_type = t2) = [] := by
  rw [List.filter_eq_nil_iff]
  intro a ha
  simp only [decide_eq_true_eq]
  intro hcon
  exact h ((lastOfType_sub a ha).2 ▸ hcon)

theorem three_lastOfType_count (ce : List Record) (t : List Char) :
    ((lastOfType ce (chars "case_received") ++
        lastOfType ce (chars "interview_cancelled") ++
        lastOfType ce (chars "last_status")).filter
      (fun x => x.status_type = t)).length ≤ 1 := by
  rw [List.filter_append, List.filter_append]
  by_cases h1 : t = chars "case_received"
  · subst h1
    rw [lastOfType_filter_ne ce (chars "interview_cancelled") _ (by decide),
      lastOfType_filter_ne ce (chars "last_status") _ (by decide)]
    simpa using (List.length_filter_le _ _).trans (lastOfType_len ce _)
  · by_cases h2 : t = chars "interview_cancelled"
    · subst h2
      rw [lastOfType_filter_ne ce (chars "case_received") _ (by decide),
        lastOfType_filter_ne ce (chars "last_status") _ (by decide)]
      simpa using (List.length_filter_le _ _).trans (lastOfType_len ce _)
    · by_cases h3 : t = chars "last_status"
      · subst h3
        rw [lastOfType_filter_ne ce (chars "case_received") _ (by decide),
          lastOfType_filter_ne ce (chars "interview_cancelled") _ (by decide)]
        simpa using (List.length_filter_le _ _).trans (lastOfType_len ce _)
      · rw [lastOfType_filter_ne ce (chars "case_received") _
            (fun hcon => h1 hcon.symm),
          lastOfType_filter_ne ce (chars "interview_cancelled") _
            (fun hcon => h2 hcon.symm),
          lastOfType_filter_ne ce (chars "last_status") _
            (fun hcon => h3 hcon.symm)]
        simp

theorem flatMap_keyCount (f : List Char → List Record)
    (hf1 : ∀ c, ∀ r ∈ f c, r.receipt_number = c)
    (hf2 : ∀ c t, ((f c).filter (fun x => x.status_type = t)).length ≤ 1) :
    ∀ (cs : List (List Char)), cs.Nodup → ∀ c t, keyCount (cs.flatMap f) c t ≤ 1 := by
  intro cs
  induction cs with
  | nil => intro _ c t; simp [keyCount]
  | cons c0 cs ih =>
    intro hnd c t
    rcases List.nodup_cons.1 hnd with ⟨hc0, hnd2⟩
    rw [List.flatMap_cons, keyCount_append]
    by_cases hcc : c = c0
    · subst hcc
      have h2 : keyCount (cs.flatMap f) c t = 0 := by
        apply keyCount_zero_of_receipts
        intro r hr
        rw [List.mem_flatMap] at hr
        rcases hr with ⟨c2, hc2, hrc2⟩
        rw [hf1 c2 r hrc2]
        intro heq
        exact hc0 (heq ▸ hc2)
      have h1 : keyCount (f c) c t ≤ 1 := by
        rw [keyCount_eq_typeCount (hf1 c) t]
        exact hf2 c t
      omega
    · have h1 : keyCount (f c0) c t = 0 := by
        apply keyCount_zero_of_receipts
        intro r hr
        rw [hf1 c0 r hr]
        exact fun heq => hcc heq.symm
      have h2 := ih hnd2 c t
      omega

theorem clean_invariant (df : List Record) :
    (∀ c t, keyCount (clean_existing_history df) c t ≤ 1) ∧
    (∀ r ∈ clean_existing_history df,
      r.status_type = chars "case_received" ∨
      r.status_type = chars "interview_cancelled" ∨
      r.status_type = chars "last_status") := by
  by_cases hdf : df = []
  · simp [clean_existing_history, hdf, keyCount]
  · simp only [clean_existing_history, if_neg hdf]
    have hf1 : ∀ c : List Char, ∀ r ∈
        (lastOfType (List.insertionSort (fun a b => recDateLe a b = true)
            ((df.filter (fun r => r.status_type ≠ chars "unknown")).filter
              (fun r => r.receipt_number = c))) (chars "case_received") ++
          lastOfType (List.insertionSort (fun a b => recDateLe a b = true)
            ((df.filter (fun r => r.status_type ≠ chars "unknown")).filter
              (fun r => r.receipt_number = c))) (chars "interview_cancelled") ++
          lastOfType (List.insertionSort (fun a b => recDateLe a b = true)
            ((df.filter (fun r => r.status_type ≠ chars "unknown")).filter
              (fun r => r.receipt_number = c))) (chars "last_status")),
        r.receipt_number = c := by
      intro c r hr
      have hce : r ∈ List.insertionSort (fun a b => recDateLe a b = true)
          ((df.filter (fun r => r.status_type ≠ chars "unknown")).filter
            (fun r => r.receipt_number = c)) := by
        rcases List.mem_append.1 hr with h | h
        · rcases List.mem_append.1 h with h2 | h2
          · exact (lastOfType_sub r h2).1
          · exact (lastOfType_sub r h2).1
        · exact (lastOfType_sub r h).1
      have hmem := (List.perm_insertionSort (fun a b => recDateLe a b = true) _).mem_iff.1 hce
      rw [List.mem_filter] at hmem
      simpa using hmem.2
    constructor
    · intro c t
      rw [keyCount_perm (List.perm_insertionSort (fun a b => recKeyLe a b = true) _) c t]
      apply flatMap_keyCount _ hf1 _ _ (uniqueFirst_nodup _ []).1 c t
      intro c2 t2
      exact three_lastOfType_count _ t2
    · intro r hr
      have hr2 := (List.perm_insertionSort (fun a b => recKeyLe a b = true) _).mem_iff.1 hr
      rw [List.mem_flatMap] at hr2
      rcases hr2 with ⟨c2, _, hrc⟩
      rcases List.mem_append.1 hrc with h | h
      · rcases List.mem_append.1 h with h2 | h2
        · exact Or.inl (lastOfType_sub r h2).2
        · exact Or.inr (Or.inl (lastOfType_sub r h2).2)
      · exact Or.inr (Or.inr (lastOfType_sub r h).2)

theorem mergeCase_fst_sublist (store : List Record) (c0 : List Char)
    (recs : List Record) : ((mergeCase store c0 recs).1).Sublist store := by
  by_cases hE : store.filter (fun r => r.receipt_number = c0) = []
  · simp [mergeCase, hE]
  · have hmc : mergeCase store c0 recs =
        recs.foldl (mergeStep (store.filter (fun r => r.receipt_number = c0)) c0)
          (store, []) := by
      simp [mergeCase, hE]
    rw [hmc]
    exact mergeFold_fst_sublist _ c0 recs (store, [])

theorem mergeCase_snd_mem (store : List Record) (c0 : List Char)
    (recs : List Record) : ∀ r ∈ (mergeCase store c0 recs).2, r ∈ recs := by
  by_cases hE : store.filter (fun r => r.receipt_number = c0) = []
  · simp [mergeCase, hE]
  · have hmc : mergeCase store c0 recs =
        recs.foldl (mergeStep (store.filter (fun r => r.receipt_number = c0)) c0)
          (store, []) := by
      simp [mergeCase, hE]
    rw [hmc]
    rcases mergeFold_snd_mem (store.filter (fun r => r.receipt_number = c0)) c0 recs
      (store, []) with ⟨ext, hext, hmem⟩
    intro r hr
    rw [hext] at hr
    simp only [List.nil_append] at hr
    exact hmem r hr

theorem stepCase_keyCount (store acc : List Record) (c0 : List Char)
    (recs : List Record)
    (hcnt : ∀ c t, keyCount (store ++ acc) c t ≤ 1)
    (hfresh : ∀ r ∈ acc, r.receipt_number ≠ c0)
    (hrc : ∀ r ∈ recs, r.receipt_number = c0)
    (hp : recs.Pairwise (fun a b => a.status_type ≠ b.status_type)) :
    ∀ c t, keyCount ((mergeCase store c0 recs).1 ++
      (acc ++ (mergeCase store c0 recs).2)) c t ≤ 1 := by
  intro c t
  rw [keyCount_append, keyCount_append]
  by_cases hE : store.filter (fun r => r.receipt_number = c0) = []
  · have hmc : mergeCase store c0 recs = (store, recs) := by
      simp [mergeCase, hE]
    have hmc1 : (mergeCase store c0 recs).1 = store := by rw [hmc]
    have hmc2 : (mergeCase store c0 recs).2 = recs := by rw [hmc]
    rw [hmc1, hmc2]
    by_cases hcc : c = c0
    · subst hcc
      have h1 : keyCount store c t = 0 := by
        have hkb : store.filter
            (fun r => r.receipt_number = c ∧ r.status_type = t) = [] := by
          rw [← filter_key_comm, hE, List.filter_nil]
        unfold keyCount
        rw [hkb]
        rfl
      have h2 : keyCount acc c t = 0 := keyCount_zero_of_receipts hfresh t
      have h3 : keyCount recs c t ≤ 1 := by
        rw [keyCount_eq_typeCount hrc t]
        exact typeCount_le_one recs hp t
      omega
    · have h3 : keyCount recs c t = 0 :=
        keyCount_zero_of_receipts
          (fun r hr heq => hcc (heq.symm.trans (hrc r hr))) t
      have h12 := hcnt c t
      rw [keyCount_append] at h12
      omega
  · have hmc : mergeCase store c0 recs =
        recs.foldl (mergeStep (store.filter (fun r => r.receipt_number = c0)) c0)
          (store, []) := by
      simp [mergeCase, hE]
    obtain ⟨p1, p2, hpp⟩ : ∃ p1 p2,
        recs.foldl (mergeStep (store.filter (fun r => r.receipt_number = c0)) c0)
          (store, []) = (p1, p2) := ⟨_, _, rfl⟩
    have hmc1 : (mergeCase store c0 recs).1 = p1 := by rw [hmc, hpp]
    have hmc2 : (mergeCase store c0 recs).2 = p2 := by rw [hmc, hpp]
    rw [hmc1, hmc2]
    have hsub : p1.Sublist store := by
      have h := mergeFold_fst_sublist
        (store.filter (fun r => r.receipt_number = c0)) c0 recs (store, [])
      rw [hpp] at h
      exact h
    have hp2mem : ∀ r ∈ p2, r ∈ recs := by
      rcases mergeFold_snd_mem (store.filter (fun r => r.receipt_number = c0)) c0 recs
        (store, []) with ⟨ext, hext, hmem⟩
      rw [hpp] at hext
      simp only [List.nil_append] at hext
      intro r hr
      rw [hext] at hr
      exact hmem r hr
    by_cases hcc : c = c0
    · subst hcc
      have hacc : keyCount acc c t = 0 := keyCount_zero_of_receipts hfresh t
      by_cases hex : ∃ rec ∈ recs, rec.status_type = t
      · obtain ⟨rec, hrecmem, hrect⟩ := hex
        subst hrect
        have hmain := mergeFold_main store
          (store.filter (fun r => r.receipt_number = c)) c rfl recs store [] hp
          (fun _ _ => rfl) (fun _ _ => rfl) rec hrecmem
        rw [hpp] at hmain
        simp only at hmain
        have hkc2 : keyCount p2 c rec.status_type =
            (p2.filter (fun x => x.status_type = rec.status_type)).length :=
          keyCount_eq_typeCount (fun r hr => hrc r (hp2mem r hr)) _
        have hlen : (p1.filter (fun x =>
              x.receipt_number = c ∧ x.status_type = rec.status_type)).length +
            (p2.filter (fun x => x.status_type = rec.status_type)).length ≤ 1 := by
          rw [← List.length_append, hmain]
          rcases hms : (store.filter (fun r => r.receipt_number = c)).filter
              (fun x => x.status_type = rec.status_type) with _ | ⟨e, tail⟩
          · rw [hms]
            simp
          · rw [hms]
            by_cases hd : e.status_date ≠ rec.status_date ∨ e.status ≠ rec.status
            · simp [hd]
            · have hle : (store.filter (fun x =>
                  x.receipt_number = c ∧ x.status_type = rec.status_type)).length ≤ 1 := by
                have h := hcnt c rec.status_type
                rw [keyCount_append] at h
                have : keyCount store c rec.status_type ≤ 1 := by omega
                exact this
              have hgoal : (if e.status_date ≠ rec.status_date ∨ e.status ≠ rec.status
                  then [rec]
                  else store.filter (fun x =>
                    x.receipt_number = c ∧ x.status_type = rec.status_type)).length ≤ 1 := by
                rw [if_neg hd]
                exact hle
              exact hgoal
        have hkc1 : keyCount p1 c rec.status_type =
            (p1.filter (fun x =>
              x.receipt_number = c ∧ x.status_type = rec.status_type)).length := rfl
        rw [hkc1, hkc2] at *
        omega
      · push_neg at hex
        have h2 : keyCount p2 c t = 0 := by
          have hnil : p2.filter
              (fun r => r.receipt_number = c ∧ r.status_type = t) = [] := by
            rw [List.filter_eq_nil_iff]
            intro a ha
            simp only [decide_eq_true_eq]
            exact fun hcon => hex a (hp2mem a ha) hcon.2
          unfold keyCount
          rw [hnil]
          rfl
        have h1 : keyCount p1 c t ≤ keyCount store c t := keyCount_sublist hsub c t
        have hst := hcnt c t
        rw [keyCount_append] at hst
        omega
    · have h2 : keyCount p2 c t = 0 :=
        keyCount_zero_of_receipts
          (fun r hr heq => hcc (heq.symm.trans (hrc r (hp2mem r hr)))) t
      have h1 : keyCount p1 c t ≤ keyCount store c t := keyCount_sublist hsub c t
      have h12 := hcnt c t
      rw [keyCount_append] at h12
      omega

theorem runFold_invariant (fetch : List Char → Option (List Char)) (ts : List Char) :
    ∀ (cs : List (List Char)) (store acc : List Record),
      cs.Nodup →
      (∀ c t, keyCount (store ++ acc) c t ≤ 1) →
      (∀ r ∈ store ++ acc,
        r.status_type = chars "case_received" ∨
        r.status_type = chars "interview_cancelled" ∨
        r.status_type = chars "last_status") →
      (∀ c ∈ cs, ∀ r ∈ acc, r.receipt_number ≠ c) →
      (∀ c t, keyCount ((cs.foldl (stepCase fetch ts) (store, acc)).1 ++
          (cs.foldl (stepCase fetch ts) (store, acc)).2) c t ≤ 1) ∧
      (∀ r ∈ (cs.foldl (stepCase fetch ts) (store, acc)).1 ++
          (cs.foldl (stepCase fetch ts) (store, acc)).2,
        r.status_type = chars "case_received" ∨
        r.status_type = chars "interview_cancelled" ∨
        r.status_type = chars "last_status") := by
  intro cs
  induction cs with
  | nil =>
    intro store acc _ h1 h2 _
    exact ⟨fun c t => h1 c t, fun r hr => h2 r hr⟩
  | cons c0 cs ih =>
    intro store acc hnd h1 h2 hfresh
    rcases List.nodup_cons.1 hnd with ⟨hc0, hnd2⟩
    rw [List.foldl_cons]
    by_cases htl : caseTimeline fetch c0 = []
    · have hid : stepCase fetch ts (store, acc) c0 = (store, acc) := by
        simp [stepCase, htl]
      rw [hid]
      exact ih store acc hnd2 h1 h2
        (fun c hc => hfresh c (List.mem_cons_of_mem _ hc))
    · have hcs := classifier_shape (caseTimeline fetch c0) c0 ts
      have hrc : ∀ r ∈ parse_timeline_entries (caseTimeline fetch c0) c0 ts,
          r.receipt_number = c0 := fun r hr => (hcs.1 r hr).1
      have hstep : stepCase fetch ts (store, acc) c0 =
          ((mergeCase store c0 (parse_timeline_entries (caseTimeline fetch c0) c0 ts)).1,
           acc ++ (mergeCase store c0
             (parse_timeline_entries (caseTimeline fetch c0) c0 ts)).2) := by
        simp [stepCase, htl]
      rw [hstep]
      apply ih
      · exact hnd2
      · exact stepCase_keyCount store acc c0 _ h1
          (hfresh c0 (List.mem_cons_self _ _)) hrc hcs.2
      · intro r hr
        rcases List.mem_append.1 hr with h | h
        · exact h2 r (List.mem_append.2 (Or.inl
            ((mergeCase_fst_sublist store c0 _).mem h)))
        · rcases List.mem_append.1 h with h4 | h4
          · exact h2 r (List.mem_append.2 (Or.inr h4))
          · exact (hcs.1 r (mergeCase_snd_mem store c0 _ r h4)).2
      · intro c hc r hr
        rcases List.mem_append.1 hr with h | h
        · exact hfresh c (List.mem_cons_of_mem _ hc) r h
        · have hr2 := hrc r (mergeCase_snd_mem store c0 _ r h)
          rw [hr2]
          intro heq
          exact hc0 (heq ▸ hc)

theorem caseCount_cons (r : Record) (l : List Record) (c : List Char) :
    caseCount (r :: l) c =
      (if r.receipt_number = c then 1 else 0) + caseCount l c := by
  by_cases h : r.receipt_number = c <;>
    simp [caseCount, List.filter_cons, h, Nat.add_comm]

theorem keyCount_cons (r : Record) (l : List Record) (c t : List Char) :
    keyCount (r :: l) c t =
      (if r.receipt_number = c ∧ r.status_type = t then 1 else 0) + keyCount l c t := by
  by_cases h : r.receipt_number = c ∧ r.status_type = t <;>
    simp [keyCount, List.filter_cons, h, Nat.add_comm]

theorem caseCount_le_sum : ∀ (l : List Record),
    (∀ r ∈ l,
      r.status_type = chars "case_received" ∨
      r.status_type = chars "interview_cancelled" ∨
      r.status_type = chars "last_status") →
    ∀ c : List Char,
      caseCount l c ≤ keyCount l c (chars "case_received") +
        keyCount l c (chars "interview_cancelled") +
        keyCount l c (chars "last_status") := by
  intro l
  induction l with
  | nil => intro _ c; simp [caseCount, keyCount]
  | cons r l ih =>
    intro h3 c
    have ihl := ih (fun x hx => h3 x (List.mem_cons_of_mem _ hx)) c
    rw [caseCount_cons, keyCount_cons, keyCount_cons, keyCount_cons]
    by_cases hr : r.receipt_number = c
    · rcases h3 r (List.mem_cons_self _ _) with ht | ht | ht <;>
        simp only [hr, ht, true_and] <;>
        simp +decide <;>
        omega
    · simp only [hr, false_and, if_false]
      omega

/-- C1, amended: for every fetch behaviour, every loaded store, every
timestamp and every input list of pairwise distinct case identifiers,
the final persisted store holds at most one record per (caseId,
statusType) pair and at most three records per caseId.  With a
repeated identifier the invariant fails, as the counterexample shows:
the loop checks a case only against the loaded store, not against the
entries accumulated in the same run. -/
theorem C1_store_invariant (fetch : List Char → Option (List Char))
    (cases : List (List Char)) (store0 : List Record) (ts : List Char)
    (hnd : cases.Nodup) :
    (∀ c t, keyCount (runPipeline fetch cases store0 ts) c t ≤ 1) ∧
    (∀ c, caseCount (runPipeline fetch cases store0 ts) c ≤ 3) := by
  have hnd2 : (List.insertionSort (fun a b => lexLe a b = true) cases).Nodup :=
    ((List.perm_insertionSort (fun a b => lexLe a b = true) cases).nodup_iff).2 hnd
  have hclean := clean_invariant store0
  have hinv := runFold_invariant fetch ts
    (List.insertionSort (fun a b => lexLe a b = true) cases)
    (clean_existing_history store0) []
    hnd2
    (fun c t => by simpa using hclean.1 c t)
    (fun r hr => hclean.2 r (by simpa using hr))
    (fun c _ r hr => absurd hr (List.not_mem_nil r))
  have hpipe : runPipeline fetch cases store0 ts =
      List.insertionSort (fun a b => recKeyLe a b = true)
        (((List.insertionSort (fun a b => lexLe a b = true) cases).foldl
            (stepCase fetch ts) (clean_existing_history store0, [])).1 ++
         ((List.insertionSort (fun a b => lexLe a b = true) cases).foldl
            (stepCase fetch ts) (clean_existing_history store0, [])).2) := rfl
  have hperm := List.perm_insertionSort (fun a b => recKeyLe a b = true)
    (((List.insertionSort (fun a b => lexLe a b = true) cases).foldl
        (stepCase fetch ts) (clean_existing_history store0, [])).1 ++
     ((List.insertionSort (fun a b => lexLe a b = true) cases).foldl
        (stepCase fetch ts) (clean_existing_history store0, [])).2)
  constructor
  · intro c t
    rw [hpipe, keyCount_perm hperm c t]
    exact hinv.1 c t
  · intro c
    have htypes : ∀ r ∈ runPipeline fetch cases store0 ts,
        r.status_type = chars "case_received" ∨
        r.status_type = chars "interview_cancelled" ∨
        r.status_type = chars "last_status" := by
      intro r hr
      rw [hpipe] at hr
      exact hinv.2 r (hperm.mem_iff.1 hr)
    have hsum := caseCount_le_sum (runPipeline fetch cases store0 ts) htypes c
    have h1 : keyCount (runPipeline fetch cases store0 ts) c
        (chars "case_received") ≤ 1 := by
      rw [hpipe, keyCount_perm hperm]
      exact hinv.1 c _
    have h2 : keyCount (runPipeline fetch cases store0 ts) c
        (chars "interview_cancelled") ≤ 1 := by
      rw [hpipe, keyCount_perm hperm]
      exact hinv.1 c _
    have h3 : keyCount (runPipeline fetch cases store0 ts) c
        (chars "last_status") ≤ 1 := by
      rw [hpipe, keyCount_perm hperm]
      exact hinv.1 c _
    omega

/-- C1, witness for the amended theorem: a two-case duplicate-free run. -/
theorem C1_store_invariant_witness :
    (∀ c t, keyCount (runPipeline
      (fun c => if c = chars "A" then some (chars "FILED DATE\nMar 17, 2025") else none)
      [chars "A", chars "B"] [] (chars "2025-10-01 00:00:00")) c t ≤ 1) ∧
    (∀ c, caseCount (runPipeline
      (fun c => if c = chars "A" then some (chars "FILED DATE\nMar 17, 2025") else none)
      [chars "A", chars "B"] [] (chars "2025-10-01 00:00:00")) c ≤ 3) :=
  C1_store_invariant
    (fun c => if c = chars "A" then some (chars "FILED DATE\nMar 17, 2025") else none)
    [chars "A", chars "B"] [] (chars "2025-10-01 00:00:00") (by decide)

theorem digitChar_facts (k : Nat) (hk : k < 10) :
    isDig (Nat.digitChar k) = true ∧ isWs (Nat.digitChar k) = false ∧
    digitVal (Nat.digitChar k) = k ∧
    Nat.digitChar k ≠ ',' ∧ Nat.digitChar k ≠ '-' ∧ Nat.digitChar k ≠ '/' ∧
    isAl (Nat.digitChar k) = false := by
  interval_cases k <;> exact ⟨rfl, rfl, rfl, by decide, by decide, by decide, rfl⟩

theorem wsP_space (x : Char) (hx : isWs x = false) (r : List Char) :
    wsP (' ' :: x :: r) = [x :: r] := by
  unfold wsP
  rw [show (' ' :: x :: r).takeWhile isWs = [' '] from by
    simp [List.takeWhile_cons, hx, show isWs ' ' = true from rfl]]
  rfl

theorem wsP_nonws (x : Char) (hx : isWs x = false) (r : List Char) :
    wsP (x :: r) = [] := by
  unfold wsP
  rw [show (x :: r).takeWhile isWs = [] from by simp [List.takeWhile_cons, hx]]
  simp

theorem litC_eq (c : Char) (xs : List Char) : litC c (c :: xs) = [xs] := by
  simp [litC]

theorem litC_ne {x c : Char} (h : x ≠ c) (xs : List Char) : litC c (x :: xs) = [] := by
  simp [litC, h]

theorem parseDayOpts_pad2 (d : Nat) (h1 : 1 ≤ d) (h2 : d ≤ 31) (rest : List Char) :
    parseDayOpts (Nat.digitChar (d / 10) :: Nat.digitChar (d % 10) :: rest) =
      (d, rest) ::
        (if 10 ≤ d then [(d / 10, Nat.digitChar (d % 10) :: rest)] else []) := by
  interval_cases d <;> rfl

theorem parseMonOpts_pad2 (m : Nat) (h1 : 1 ≤ m) (h2 : m ≤ 12) (rest : List Char) :
    parseMonOpts (Nat.digitChar (m / 10) :: Nat.digitChar (m % 10) :: rest) =
      (m, rest) ::
        (if 10 ≤ m then [(m / 10, Nat.digitChar (m % 10) :: rest)] else []) := by
  interval_cases m <;> rfl

theorem parseY4_pad4 (y : Nat) (hy : y ≤ 9999) (rest : List Char) :
    parseY4 (Nat.digitChar (y / 1000 % 10) :: Nat.digitChar (y / 100 % 10) ::
      Nat.digitChar (y / 10 % 10) :: Nat.digitChar (y % 10) :: rest) = [(y, rest)] := by
  have h1 := digitChar_facts (y / 1000 % 10) (Nat.mod_lt _ (by norm_num))
  have h2 := digitChar_facts (y / 100 % 10) (Nat.mod_lt _ (by norm_num))
  have h3 := digitChar_facts (y / 10 % 10) (Nat.mod_lt _ (by norm_num))
  have h4 := digitChar_facts (y % 10) (Nat.mod_lt _ (by norm_num))
  simp only [parseY4, h1.1, h2.1, h3.1, h4.1, Bool.and_self, Bool.and_true, if_true,
    h1.2.2.1, h2.2.2.1, h3.2.2.1, h4.2.2.1]
  have : ((y / 1000 % 10 * 10 + y / 100 % 10) * 10 + y / 10 % 10) * 10 + y % 10 = y := by
    omega
  rw [this]

theorem parseY4_slash (a b x : Char) (rest : List Char) :
    parseY4 (a :: b :: '/' :: x :: rest) = [] := by
  simp only [parseY4]
  rw [show isDig '/' = false from rfl]
  simp

theorem runFmtMDY_render (names : List (Nat × List Char)) (m y d : Nat)
    (hd1 : 1 ≤ d) (hd2 : d ≤ 31) (hy : y ≤ 9999) (l : List Char)
    (hmon : parseMonthIn names l =
      [(m, ' ' :: Nat.digitChar (d / 10) :: Nat.digitChar (d % 10) :: ',' :: ' ' ::
        Nat.digitChar (y / 1000 % 10) :: Nat.digitChar (y / 100 % 10) ::
        Nat.digitChar (y / 10 % 10) :: Nat.digitChar (y % 10) :: [])]) :
    runFmtMDY names l = some (y, m, d) := by
  have hdu := digitChar_facts (d / 10) (by omega)
  have hdl := digitChar_facts (d % 10) (by omega)
  have hy1 := digitChar_facts (y / 1000 % 10) (Nat.mod_lt _ (by norm_num))
  have hws1 := wsP_space (Nat.digitChar (d / 10)) hdu.2.1
    (Nat.digitChar (d % 10) :: ',' :: ' ' :: Nat.digitChar (y / 1000 % 10) ::
      Nat.digitChar (y / 100 % 10) :: Nat.digitChar (y / 10 % 10) ::
      Nat.digitChar (y % 10) :: [])
  have hday := parseDayOpts_pad2 d hd1 hd2
    (',' :: ' ' :: Nat.digitChar (y / 1000 % 10) :: Nat.digitChar (y / 100 % 10) ::
      Nat.digitChar (y / 10 % 10) :: Nat.digitChar (y % 10) :: [])
  have hlit := litC_eq ','
    (' ' :: Nat.digitChar (y / 1000 % 10) :: Nat.digitChar (y / 100 % 10) ::
      Nat.digitChar (y / 10 % 10) :: Nat.digitChar (y % 10) :: [])
  have hws2 := wsP_space (Nat.digitChar (y / 1000 % 10)) hy1.2.1
    (Nat.digitChar (y / 100 % 10) :: Nat.digitChar (y / 10 % 10) ::
      Nat.digitChar (y % 10) :: [])
  have hy4 := parseY4_pad4 y hy []
  by_cases h10 : 10 ≤ d <;>
    simp [runFmtMDY, hmon, hws1, hday, h10, hlit, litC_ne hdl.2.2.2.1, hws2, hy4]

theorem runFmtMDY_none (names : List (Nat × List Char)) (l : List Char)
    (hmon : parseMonthIn names l = []) : runFmtMDY names l = none := by
  simp [runFmtMDY, hmon]

theorem runFmtMDY_wsfail (names : List (Nat × List Char)) (l : List Char)
    (m2 : Nat) (x : Char) (rest : List Char)
    (hmon : parseMonthIn names l = [(m2, x :: rest)]) (hx : isWs x = false) :
    runFmtMDY names l = none := by
  simp [runFmtMDY, hmon, wsP_nonws x hx rest]

theorem runFmtISO_render (y m d : Nat) (hm1 : 1 ≤ m) (hm2 : m ≤ 12)
    (hd1 : 1 ≤ d) (hd2 : d ≤ 31) (hy : y ≤ 9999) :
    runFmtISO (Nat.digitChar (y / 1000 % 10) :: Nat.digitChar (y / 100 % 10) ::
      Nat.digitChar (y / 10 % 10) :: Nat.digitChar (y % 10) :: '-' ::
      Nat.digitChar (m / 10) :: Nat.digitChar (m % 10) :: '-' ::
      Nat.digitChar (d / 10) :: Nat.digitChar (d % 10) :: []) = some (y, m, d) := by
  have hml := digitChar_facts (m % 10) (Nat.mod_lt _ (by norm_num))
  have hy4 := parseY4_pad4 y hy
    ('-' :: Nat.digitChar (m / 10) :: Nat.digitChar (m % 10) :: '-' ::
      Nat.digitChar (d / 10) :: Nat.digitChar (d % 10) :: [])
  have hmon2 := parseMonOpts_pad2 m hm1 hm2
    ('-' :: Nat.digitChar (d / 10) :: Nat.digitChar (d % 10) :: [])
  have hday := parseDayOpts_pad2 d hd1 hd2 ([] : List Char)
  have hlit1 := litC_eq '-'
    (Nat.digitChar (m / 10) :: Nat.digitChar (m % 10) :: '-' ::
      Nat.digitChar (d / 10) :: Nat.digitChar (d % 10) :: [])
  have hlit2 := litC_eq '-' (Nat.digitChar (d / 10) :: Nat.digitChar (d % 10) :: [])
  by_cases hm10 : 10 ≤ m <;> by_cases hd10 : 10 ≤ d <;>
    simp [runFmtISO, hy4, hmon2, hday, hm10, hd10, hlit1, hlit2,
      litC_ne hml.2.2.2.2.1]

theorem runFmtISO_none (l : List Char) (h : parseY4 l = []) :
    runFmtISO l = none := by
  simp [runFmtISO, h]

theorem runFmtSlash_render (y m d : Nat) (hm1 : 1 ≤ m) (hm2 : m ≤ 12)
    (hd1 : 1 ≤ d) (hd2 : d ≤ 31) (hy : y ≤ 9999) :
    runFmtSlash (Nat.digitChar (m / 10) :: Nat.digitChar (m % 10) :: '/' ::
      Nat.digitChar (d / 10) :: Nat.digitChar (d % 10) :: '/' ::
      Nat.digitChar (y / 1000 % 10) :: Nat.digitChar (y / 100 % 10) ::
      Nat.digitChar (y / 10 % 10) :: Nat.digitChar (y % 10) :: []) = some (y, m, d) := by
  have hml := digitChar_facts (m % 10) (Nat.mod_lt _ (by norm_num))
  have hdl := digitChar_facts (d % 10) (Nat.mod_lt _ (by norm_num))
  have hmon2 := parseMonOpts_pad2 m hm1 hm2
    ('/' :: Nat.digitChar (d / 10) :: Nat.digitChar (d % 10) :: '/' ::
      Nat.digitChar (y / 1000 % 10) :: Nat.digitChar (y / 100 % 10) ::
      Nat.digitChar (y / 10 % 10) :: Nat.digitChar (y % 10) :: [])
  have hday := parseDayOpts_pad2 d hd1 hd2
    ('/' :: Nat.digitChar (y / 1000 % 10) :: Nat.digitChar (y / 100 % 10) ::
      Nat.digitChar (y / 10 % 10) :: Nat.digitChar (y % 10) :: [])
  have hy4 := parseY4_pad4 y hy []
  have hlit1 := litC_eq '/'
    (Nat.digitChar (d / 10) :: Nat.digitChar (d % 10) :: '/' ::
      Nat.digitChar (y / 1000 % 10) :: Nat.digitChar (y / 100 % 10) ::
      Nat.digitChar (y / 10 % 10) :: Nat.digitChar (y % 10) :: [])
  have hlit2 := litC_eq '/'
    (Nat.digitChar (y / 1000 % 10) :: Nat.digitChar (y / 100 % 10) ::
      Nat.digitChar (y / 10 % 10) :: Nat.digitChar (y % 10) :: [])
  by_cases hm10 : 10 ≤ m <;> by_cases hd10 : 10 ≤ d <;>
    simp [runFmtSlash, hmon2, hday, hm10, hd10, hlit1, hlit2, hy4,
      litC_ne hml.2.2.2.2.2.1, litC_ne hdl.2.2.2.2.2.1]

theorem parseMonthIn_abbrevs_digit (k : Nat) (hk : k < 10) (rest : List Char) :
    parseMonthIn monthAbbrevs (Nat.digitChar k :: rest) = [] := by
  interval_cases k <;> simp +decide [parseMonthIn, monthAbbrevs, matchNameCI]

theorem parseMonthIn_fulls_digit (k : Nat) (hk : k < 10) (rest : List Char) :
    parseMonthIn monthFulls (Nat.digitChar k :: rest) = [] := by
  interval_cases k <;> simp +decide [parseMonthIn, monthFulls, matchNameCI]

theorem pyStrip_eq_self2 (a b : Char) (l : List Char)
    (ha : isWs a = false) (hb : isWs b = false)
    (hlast : (a :: l).getLast? = some b) : pyStrip (a :: l) = a :: l := by
  unfold pyStrip
  rw [show (a :: l).dropWhile isWs = a :: l from by simp [List.dropWhile_cons, ha]]
  rcases hrev : (a :: l).reverse with _ | ⟨c, cs⟩
  · exact absurd hrev (by simp)
  · have hc : c = b := by
      have h1 := List.head?_reverse (a :: l)
      rw [hrev, hlast] at h1
      simpa using h1
    have hbc : isWs c = false := by rw [hc]; exact hb
    rw [show List.dropWhile isWs (c :: cs) = c :: cs from by
      simp [List.dropWhile_cons, hbc]]
    rw [← hrev, List.reverse_reverse]

theorem daysInMonth_le (y m : Nat) : daysInMonth y m ≤ 31 := by
  unfold daysInMonth
  split_ifs <;> omega

theorem tryFmt_some (f : List Char → Option (Nat × Nat × Nat)) (l : List Char)
    (y m d : Nat) (h : f l = some (y, m, d)) (hv : validYMD y m d = true) :
    tryFmt f l = some (isoRender y m d) := by
  unfold tryFmt
  rw [h]
  simp [hv]

theorem tryFmt_fail (f : List Char → Option (Nat × Nat × Nat)) (l : List Char)
    (h : f l = none) : tryFmt f l = none := by
  unfold tryFmt
  rw [h]

theorem parse_date_eval1 (l : List Char) (hstrip : pyStrip l = l) (y m d : Nat)
    (hv : validYMD y m d = true)
    (h1 : runFmtMDY monthAbbrevs l = some (y, m, d)) :
    parse_date l = isoRender y m d := by
  unfold parse_date
  rw [hstrip]
  dsimp only
  rw [tryFmt_some _ _ _ _ _ h1 hv]

theorem parse_date_eval2 (l : List Char) (hstrip : pyStrip l = l) (y m d : Nat)
    (hv : validYMD y m d = true)
    (h1 : runFmtMDY monthAbbrevs l = none)
    (h2 : runFmtMDY monthFulls l = some (y, m, d)) :
    parse_date l = isoRender y m d := by
  unfold parse_date
  rw [hstrip]
  dsimp only
  rw [tryFmt_fail _ _ h1, tryFmt_some _ _ _ _ _ h2 hv]

theorem parse_date_eval3 (l : List Char) (hstrip : pyStrip l = l) (y m d : Nat)
    (hv : validYMD y m d = true)
    (h1 : runFmtMDY monthAbbrevs l = none)
    (h2 : runFmtMDY monthFulls l = none)
    (h3 : runFmtISO l = some (y, m, d)) :
    parse_date l = isoRender y m d := by
  unfold parse_date
  rw [hstrip]
  dsimp only
  rw [tryFmt_fail _ _ h1, tryFmt_fail _ _ h2, tryFmt_some _ _ _ _ _ h3 hv]

theorem parse_date_eval4 (l : List Char) (hstrip : pyStrip l = l) (y m d : Nat)
    (hv : validYMD y m d = true)
    (h1 : runFmtMDY monthAbbrevs l = none)
    (h2 : runFmtMDY monthFulls l = none)
    (h3 : runFmtISO l = none)
    (h4 : runFmtSlash l = some (y, m, d)) :
    parse_date l = isoRender y m d := by
  unfold parse_date
  rw [hstrip]
  dsimp only
  rw [tryFmt_fail _ _ h1, tryFmt_fail _ _ h2, tryFmt_fail _ _ h3,
    tryFmt_some _ _ _ _ _ h4 hv]

set_option maxHeartbeats 1600000 in
/-- C7: date round-trip.  For every calendar date the datetime
constructor accepts (year 1 to 9999, valid month and day), parsing the
rendering of that date in each of the four supported formats
(abbreviated-month, full-month, ISO, slash-separated) returns exactly
the ISO YYYY-MM-DD rendering of the date, confirming the claim. -/
theorem C7_date_roundtrip (y m d : Nat) (hv : validYMD y m d = true) :
    parse_date (renderAbbrev y m d) = isoRender y m d ∧
    parse_date (renderFull y m d) = isoRender y m d ∧
    parse_date (renderISO y m d) = isoRender y m d ∧
    parse_date (renderSlash y m d) = isoRender y m d := by
  have hb := hv
  simp only [validYMD, Bool.and_eq_true, decide_eq_true_eq] at hb
  obtain ⟨⟨hy1, hy2, hm1, hm2, hd1⟩, hdm⟩ := hb
  have hd2 : d ≤ 31 := le_trans hdm (daysInMonth_le y m)
  have hyl := digitChar_facts (y % 10) (Nat.mod_lt _ (by norm_num))
  have hyh := digitChar_facts (y / 1000 % 10) (Nat.mod_lt _ (by norm_num))
  have hdlo := digitChar_facts (d % 10) (Nat.mod_lt _ (by norm_num))
  have hmh := digitChar_facts (m / 10) (by omega)
  refine ⟨?_, ?_, ?_, ?_⟩
  · -- abbreviated-month format
    interval_cases m <;>
      refine parse_date_eval1 _ ?_ y _ d hv ?_ <;>
      simp only [renderAbbrev, monthAbbrevOf, pad2, pad4, List.cons_append,
        List.nil_append] <;>
      first
        | exact pyStrip_eq_self2 _ _ _ (by decide) hyl.2.1 rfl
        | (refine runFmtMDY_render monthAbbrevs _ y d hd1 hd2 hy2 _ ?_
           simp +decide [parseMonthIn, monthAbbrevs, matchNameCI])
  · -- full-month format
    interval_cases m
    · refine parse_date_eval2 _ ?_ y _ d hv ?_ ?_ <;>
        simp only [renderFull, monthFullOf, pad2, pad4, List.cons_append,
          List.nil_append]
      · exact pyStrip_eq_self2 _ _ _ (by decide) hyl.2.1 rfl
      · refine runFmtMDY_wsfail monthAbbrevs _ 1 'u'
          ('a' :: 'r' :: 'y' :: ' ' :: Nat.digitChar (d / 10) :: Nat.digitChar (d % 10) :: ',' :: ' ' :: Nat.digitChar (y / 1000 % 10) :: Nat.digitChar (y / 100 % 10) :: Nat.digitChar (y / 10 % 10) :: Nat.digitChar (y % 10) :: []) ?_ (by decide)
        simp +decide [parseMonthIn, monthAbbrevs, matchNameCI]
      · refine runFmtMDY_render monthFulls _ y d hd1 hd2 hy2 _ ?_
        simp +decide [parseMonthIn, monthFulls, matchNameCI]
    · refine parse_date_eval2 _ ?_ y _ d hv ?_ ?_ <;>
        simp only [renderFull, monthFullOf, pad2, pad4, List.cons_append,
          List.nil_append]
      · exact pyStrip_eq_self2 _ _ _ (by decide) hyl.2.1 rfl
      · refine runFmtMDY_wsfail monthAbbrevs _ 2 'r'
          ('u' :: 'a' :: 'r' :: 'y' :: ' ' :: Nat.digitChar (d / 10) :: Nat.digitChar (d % 10) :: ',' :: ' ' :: Nat.digitChar (y / 1000 % 10) :: Nat.digitChar (y / 100 % 10) :: Nat.digitChar (y / 10 % 10) :: Nat.digitChar (y % 10) :: []) ?_ (by decide)
        simp +decide [parseMonthIn, monthAbbrevs, matchNameCI]
      · refine runFmtMDY_render monthFulls _ y d hd1 hd2 hy2 _ ?_
        simp +decide [parseMonthIn, monthFulls, matchNameCI]
    · refine parse_date_eval2 _ ?_ y _ d hv ?_ ?_ <;>
        simp only [renderFull, monthFullOf, pad2, pad4, List.cons_append,
          List.nil_append]
      · exact pyStrip_eq_self2 _ _ _ (by decide) hyl.2.1 rfl
      · refine runFmtMDY_wsfail monthAbbrevs _ 3 'c'
          ('h' :: ' ' :: Nat.digitChar (d / 10) :: Nat.digitChar (d % 10) :: ',' :: ' ' :: Nat.digitChar (y / 1000 % 10) :: Nat.digitChar (y / 100 % 10) :: Nat.digitChar (y / 10 % 10) :: Nat.digitChar (y % 10) :: []) ?_ (by decide)
        simp +decide [parseMonthIn, monthAbbrevs, matchNameCI]
      · refine runFmtMDY_render monthFulls _ y d hd1 hd2 hy2 _ ?_
        simp +decide [parseMonthIn, monthFulls, matchNameCI]
    · refine parse_date_eval2 _ ?_ y _ d hv ?_ ?_ <;>
        simp only [renderFull, monthFullOf, pad2, pad4, List.cons_append,
          List.nil_append]
      · exact pyStrip_eq_self2 _ _ _ (by decide) hyl.2.1 rfl
      · refine runFmtMDY_wsfail monthAbbrevs _ 4 'i'
          ('l' :: ' ' :: Nat.digitChar (d / 10) :: Nat.digitChar (d % 10) :: ',' :: ' ' :: Nat.digitChar (y / 1000 % 10) :: Nat.digitChar (y / 100 % 10) :: Nat.digitChar (y / 10 % 10) :: Nat.digitChar (y % 10) :: []) ?_ (by decide)
        simp +decide [parseMonthIn, monthAbbrevs, matchNameCI]
      · refine runFmtMDY_render monthFulls _ y d hd1 hd2 hy2 _ ?_
        simp +decide [parseMonthIn, monthFulls, matchNameCI]
    · refine parse_date_eval1 _ ?_ y _ d hv ?_ <;>
        simp only [renderFull, monthFullOf, pad2, pad4, List.cons_append,
          List.nil_append]
      · exact pyStrip_eq_self2 _ _ _ (by decide) hyl.2.1 rfl
      · refine runFmtMDY_render monthAbbrevs _ y d hd1 hd2 hy2 _ ?_
        simp +decide [parseMonthIn, monthAbbrevs, matchNameCI]
    · refine parse_date_eval2 _ ?_ y _ d hv ?_ ?_ <;>
        simp only [renderFull, monthFullOf, pad2, pad4, List.cons_append,
          List.nil_append]
      · exact pyStrip_eq_self2 _ _ _ (by decide) hyl.2.1 rfl
      · refine runFmtMDY_wsfail monthAbbrevs _ 6 'e'
          (' ' :: Nat.digitChar (d / 10) :: Nat.digitChar (d % 10) :: ',' :: ' ' :: Nat.digitChar (y / 1000 % 10) :: Nat.digitChar (y / 100 % 10) :: Nat.digitChar (y / 10 % 10) :: Nat.digitChar (y % 10) :: []) ?_ (by decide)
        simp +decide [parseMonthIn, monthAbbrevs, matchNameCI]
      · refine runFmtMDY_render monthFulls _ y d hd1 hd2 hy2 _ ?_
        simp +decide [parseMonthIn, monthFulls, matchNameCI]
    · refine parse_date_eval2 _ ?_ y _ d hv ?_ ?_ <;>
        simp only [renderFull, monthFullOf, pad2, pad4, List.cons_append,
          List.nil_append]
      · exact pyStrip_eq_self2 _ _ _ (by decide) hyl.2.1 rfl
      · refine runFmtMDY_wsfail monthAbbrevs _ 7 'y'
          (' ' :: Nat.digitChar (d / 10) :: Nat.digitChar (d % 10) :: ',' :: ' ' :: Nat.digitChar (y / 1000 % 10) :: Nat.digitChar (y / 100 % 10) :: Nat.digitChar (y / 10 % 10) :: Nat.digitChar (y % 10) :: []) ?_ (by decide)
        simp +decide [parseMonthIn, monthAbbrevs, matchNameCI]
      · refine runFmtMDY_render monthFulls _ y d hd1 hd2 hy2 _ ?_
        simp +decide [parseMonthIn, monthFulls, matchNameCI]
    · refine parse_date_eval2 _ ?_ y _ d hv ?_ ?_ <;>
        simp only [renderFull, monthFullOf, pad2, pad4, List.cons_append,
          List.nil_append]
      · exact pyStrip_eq_self2 _ _ _ (by decide) hyl.2.1 rfl
      · refine runFmtMDY_wsfail monthAbbrevs _ 8 'u'
          ('s' :: 't' :: ' ' :: Nat.digitChar (d / 10) :: Nat.digitChar (d % 10) :: ',' :: ' ' :: Nat.digitChar (y / 1000 % 10) :: Nat.digitChar (y / 100 % 10) :: Nat.digitChar (y / 10 % 10) :: Nat.digitChar (y % 10) :: []) ?_ (by decide)
        simp +decide [parseMonthIn, monthAbbrevs, matchNameCI]
      · refine runFmtMDY_render monthFulls _ y d hd1 hd2 hy2 _ ?_
        simp +decide [parseMonthIn, monthFulls, matchNameCI]
    · refine parse_date_eval2 _ ?_ y _ d hv ?_ ?_ <;>
        simp only [renderFull, monthFullOf, pad2, pad4, List.cons_append,
          List.nil_append]
      · exact pyStrip_eq_self2 _ _ _ (by decide) hyl.2.1 rfl
      · refine runFmtMDY_wsfail monthAbbrevs _ 9 't'
          ('e' :: 'm' :: 'b' :: 'e' :: 'r' :: ' ' :: Nat.digitChar (d / 10) :: Nat.digitChar (d % 10) :: ',' :: ' ' :: Nat.digitChar (y / 1000 % 10) :: Nat.digitChar (y / 100 % 10) :: Nat.digitChar (y / 10 % 10) :: Nat.digitChar (y % 10) :: []) ?_ (by decide)
        simp +decide [parseMonthIn, monthAbbrevs, matchNameCI]
      · refine runFmtMDY_render monthFulls _ y d hd1 hd2 hy2 _ ?_
        simp +decide [parseMonthIn, monthFulls, matchNameCI]
    · refine parse_date_eval2 _ ?_ y _ d hv ?_ ?_ <;>
        simp only [renderFull, monthFullOf, pad2, pad4, List.cons_append,
          List.nil_append]
      · exact pyStrip_eq_self2 _ _ _ (by decide) hyl.2.1 rfl
      · refine runFmtMDY_wsfail monthAbbrevs _ 10 'o'
          ('b' :: 'e' :: 'r' :: ' ' :: Nat.digitChar (d / 10) :: Nat.digitChar (d % 10) :: ',' :: ' ' :: Nat.digitChar (y / 1000 % 10) :: Nat.digitChar (y / 100 % 10) :: Nat.digitChar (y / 10 % 10) :: Nat.digitChar (y % 10) :: []) ?_ (by decide)
        simp +decide [parseMonthIn, monthAbbrevs, matchNameCI]
      · refine runFmtMDY_render monthFulls _ y d hd1 hd2 hy2 _ ?_
        simp +decide [parseMonthIn, monthFulls, matchNameCI]
    · refine parse_date_eval2 _ ?_ y _ d hv ?_ ?_ <;>
        simp only [renderFull, monthFullOf, pad2, pad4, List.cons_append,
          List.nil_append]
      · exact pyStrip_eq_self2 _ _ _ (by decide) hyl.2.1 rfl
      · refine runFmtMDY_wsfail monthAbbrevs _ 11 'e'
          ('m' :: 'b' :: 'e' :: 'r' :: ' ' :: Nat.digitChar (d / 10) :: Nat.digitChar (d % 10) :: ',' :: ' ' :: Nat.digitChar (y / 1000 % 10) :: Nat.digitChar (y / 100 % 10) :: Nat.digitChar (y / 10 % 10) :: Nat.digitChar (y % 10) :: []) ?_ (by decide)
        simp +decide [parseMonthIn, monthAbbrevs, matchNameCI]
      · refine runFmtMDY_render monthFulls _ y d hd1 hd2 hy2 _ ?_
        simp +decide [parseMonthIn, monthFulls, matchNameCI]
    · refine parse_date_eval2 _ ?_ y _ d hv ?_ ?_ <;>
        simp only [renderFull, monthFullOf, pad2, pad4, List.cons_append,
          List.nil_append]
      · exact pyStrip_eq_self2 _ _ _ (by decide) hyl.2.1 rfl
      · refine runFmtMDY_wsfail monthAbbrevs _ 12 'e'
          ('m' :: 'b' :: 'e' :: 'r' :: ' ' :: Nat.digitChar (d / 10) :: Nat.digitChar (d % 10) :: ',' :: ' ' :: Nat.digitChar (y / 1000 % 10) :: Nat.digitChar (y / 100 % 10) :: Nat.digitChar (y / 10 % 10) :: Nat.digitChar (y % 10) :: []) ?_ (by decide)
        simp +decide [parseMonthIn, monthAbbrevs, matchNameCI]
      · refine runFmtMDY_render monthFulls _ y d hd1 hd2 hy2 _ ?_
        simp +decide [parseMonthIn, monthFulls, matchNameCI]
  · -- ISO format
    refine parse_date_eval3 _ ?_ y m d hv ?_ ?_ ?_ <;>
      simp only [renderISO, isoRender, pad2, pad4, List.cons_append,
        List.nil_append]
    · exact pyStrip_eq_self2 _ _ _ hyh.2.1 hdlo.2.1 rfl
    · exact runFmtMDY_none _ _
        (parseMonthIn_abbrevs_digit _ (Nat.mod_lt _ (by norm_num)) _)
    · exact runFmtMDY_none _ _
        (parseMonthIn_fulls_digit _ (Nat.mod_lt _ (by norm_num)) _)
    · exact runFmtISO_render y m d hm1 hm2 hd1 hd2 hy2
  · -- slash format
    refine parse_date_eval4 _ ?_ y m d hv ?_ ?_ ?_ ?_ <;>
      simp only [renderSlash, pad2, pad4, List.cons_append, List.nil_append]
    · exact pyStrip_eq_self2 _ _ _ hmh.2.1 hyl.2.1 rfl
    · exact runFmtMDY_none _ _ (parseMonthIn_abbrevs_digit _ (by omega) _)
    · exact runFmtMDY_none _ _ (parseMonthIn_fulls_digit _ (by omega) _)
    · exact runFmtISO_none _ (parseY4_slash _ _ _ _)
    · exact runFmtSlash_render y m d hm1 hm2 hd1 hd2 hy2

/-- C7 witness: the round-trip at the concrete date 2025-03-17. -/
theorem C7_date_roundtrip_witness :
    validYMD 2025 3 17 = true ∧
    (parse_date (renderAbbrev 2025 3 17) = isoRender 2025 3 17 ∧
     parse_date (renderFull 2025 3 17) = isoRender 2025 3 17 ∧
     parse_date (renderISO 2025 3 17) = isoRender 2025 3 17 ∧
     parse_date (renderSlash 2025 3 17) = isoRender 2025 3 17) :=
  ⟨by decide, C7_date_roundtrip 2025 3 17 (by decide)⟩
